import Mathlib

/-!
# Pull-request reviewer assignment service

A shallow embedding of `internal/entities`, `internal/repos` and
`internal/service`.

* The SQL database is a record of four tables, each a list of rows in table
  order.  Every repository function is the relational meaning of its query.
* Every database round trip is taken to reach the server: the only failures
  are the ones the queries themselves produce (`sql.ErrNoRows`, a violated
  key).  A write returns `Except Error DB`; a transaction that fails yields
  no new database, which is its rollback.
* `time.Now()` is the argument `now`, one clock reading per service call.
* An index past the end of a slice, which panics in Go, is the error value
  `indexOutOfRange`.
* `math/rand` is the argument `rnd`: the draw made by `Shuffle` at loop index
  `i` is `rnd i % (i + 1)`, so every run of the generator is some `rnd`.
-/

namespace PRService

/-! ## entities -/

structure User where
  ID : String
  Username : String
  TeamName : String
  IsActive : Bool
deriving DecidableEq, Repr

structure TeamMember where
  UserID : String
  Username : String
  IsActive : Bool
deriving DecidableEq, Repr

structure Team where
  TeamName : String
  Members : List TeamMember
deriving DecidableEq, Repr

structure PullRequest where
  ID : String
  Name : String
  AuthorID : String
  Status : String
  AssignedReviewers : List String
  CreatedAt : Option Nat
  MergedAt : Option Nat
deriving DecidableEq, Repr

structure PullRequestShort where
  ID : String
  Name : String
  AuthorID : String
  Status : String
deriving DecidableEq, Repr

def StatusOpen : String := "OPEN"

def StatusMerged : String := "MERGED"

/-- The error values the service can return: the six codes of `entities`,
and the errors of the storage layer that the service passes on unchanged. -/
inductive Error where
  | ErrTeamExists
  | ErrPRExists
  | ErrPRMerged
  | ErrNotAssigned
  | ErrNoCandidate
  | ErrNotFound
  | sqlErrNoRows
  | pqConstraint
  | indexOutOfRange
deriving DecidableEq, Repr

/-! ## tables -/

structure UserRow where
  id : String
  username : String
  team_name : String
  is_active : Bool
  updated_at : Nat
deriving DecidableEq, Repr

structure PullRequestRow where
  id : String
  name : String
  author_id : String
  status : String
  created_at : Nat
  merged_at : Option Nat
deriving DecidableEq, Repr

structure ReviewerRow where
  pull_request_id : String
  user_id : String
  assigned_at : Nat
deriving DecidableEq, Repr

structure DB where
  teams : List String
  users : List UserRow
  pull_requests : List PullRequestRow
  pr_reviewers : List ReviewerRow
deriving DecidableEq, Repr

deriving instance DecidableEq for Except

def DB.empty : DB := { teams := [], users := [], pull_requests := [], pr_reviewers := [] }

/-- Modelled from the spec: the schema file `migrations/001_init.sql` is not
part of the sources.  The spec gives the keys: teams keyed by name, users keyed
by ID with a team-name foreign key, pull requests keyed by ID, the
reviewer-assignment relation keyed by (PR ID, user ID).  Every assignment row
belongs to a stored pull request (the relation is a join entity between pull
requests and users). -/
def DB.Schema (db : DB) : Prop :=
  db.teams.Nodup ∧
  (db.users.map (fun u => u.id)).Nodup ∧
  (∀ u ∈ db.users, u.team_name ∈ db.teams) ∧
  (db.pull_requests.map (fun p => p.id)).Nodup ∧
  (db.pr_reviewers.map (fun r => (r.pull_request_id, r.user_id))).Nodup ∧
  (∀ r ∈ db.pr_reviewers, ∃ p ∈ db.pull_requests, p.id = r.pull_request_id)

instance (db : DB) : Decidable db.Schema := by
  unfold DB.Schema
  infer_instance

/-! ## repos -/

def UserRow.toUser (r : UserRow) : User :=
  { ID := r.id, Username := r.username, TeamName := r.team_name, IsActive := r.is_active }

/-- The statement `insert into teams (team_name) values ($1)`; the key of
`teams` (see `DB.Schema`) rejects a second row of the same name. -/
def Repo.CreateTeam (db : DB) (teamName : String) : Except Error DB :=
  if teamName ∈ db.teams then .error .pqConstraint
  else .ok { db with teams := db.teams ++ [teamName] }

/-- The query `select ... from users where team_name = $1 order by username`. -/
def Repo.GetTeamMembers (db : DB) (teamName : String) : List User :=
  ((db.users.filter (fun u => u.team_name == teamName)).insertionSort
    (fun a b => a.username ≤ b.username)).map UserRow.toUser

def Repo.TeamExists (db : DB) (teamName : String) : Bool :=
  decide (teamName ∈ db.teams)

def Repo.GetTeam (db : DB) (teamName : String) : Except Error Team :=
  if teamName ∈ db.teams then
    .ok { TeamName := teamName,
          Members := (Repo.GetTeamMembers db teamName).map
            (fun mem => { UserID := mem.ID, Username := mem.Username, IsActive := mem.IsActive }) }
  else .error .sqlErrNoRows

/-- The upsert `insert into users ... on conflict (id) do update set ...`.
The foreign key on `team_name` (see `DB.Schema`) rejects a team that is not
stored. -/
def Repo.CreateOrUpdateUser (db : DB) (user : User) (now : Nat) : Except Error DB :=
  let row : UserRow :=
    { id := user.ID, username := user.Username, team_name := user.TeamName,
      is_active := user.IsActive, updated_at := now }
  if user.TeamName ∈ db.teams then
    if db.users.any (fun u => u.id == user.ID) then
      .ok { db with users := db.users.map (fun u => if u.id = user.ID then row else u) }
    else
      .ok { db with users := db.users ++ [row] }
  else .error .pqConstraint

def Repo.GetUser (db : DB) (id : String) : Except Error User :=
  match db.users.find? (fun u => u.id == id) with
  | some u => .ok u.toUser
  | none => .error .sqlErrNoRows

def Repo.SetUserActive (db : DB) (id : String) (isActive : Bool) (now : Nat) : Except Error DB :=
  if db.users.any (fun u => u.id == id) then
    .ok { db with
          users := db.users.map
            (fun u => if u.id = id then { u with is_active := isActive, updated_at := now } else u) }
  else .error .sqlErrNoRows

/-- The query `select ... from users where team_name = $1 and is_active = true`,
extended by `and id not in (...)` when the exclusion list is not empty. -/
def Repo.GetActiveTeamMembers (db : DB) (teamName : String) (excludeUser : List String) :
    List User :=
  if 0 < excludeUser.length then
    (db.users.filter
      (fun u => u.team_name == teamName && u.is_active == true && !(excludeUser.contains u.id))).map
      UserRow.toUser
  else
    (db.users.filter (fun u => u.team_name == teamName && u.is_active == true)).map
      UserRow.toUser

/-- The statement `insert into pr_reviewers (pull_request_id, user_id) values ($1, $2)`.
The assignment time is the column default, read off the clock; the key
(PR id, user id) of the relation (see `DB.Schema`) rejects a second row of the
same pair. -/
def Repo.AddReviewer (db : DB) (prID userID : String) (now : Nat) : Except Error DB :=
  if db.pr_reviewers.any (fun r => r.pull_request_id == prID && r.user_id == userID) then
    .error .pqConstraint
  else
    .ok { db with pr_reviewers := db.pr_reviewers ++
            [{ pull_request_id := prID, user_id := userID, assigned_at := now }] }

/-- One transaction: the pull request row, rejected by the key of
`pull_requests` when the id is stored, then one assignment row per reviewer.
A failing statement aborts the transaction. -/
def Repo.CreatePullRequest (db : DB) (pr : PullRequest) (revIds : List String) (now : Nat) :
    Except Error DB :=
  if db.pull_requests.any (fun p => p.id == pr.ID) then .error .pqConstraint
  else
    revIds.foldlM (fun d revId => Repo.AddReviewer d pr.ID revId now)
      { db with pull_requests := db.pull_requests ++
          [{ id := pr.ID, name := pr.Name, author_id := pr.AuthorID, status := pr.Status,
             created_at := now, merged_at := none }] }

/-- The query `select user_id from pr_reviewers where pull_request_id = $1
order by assigned_at`; rows of equal assignment time keep their table order. -/
def Repo.GetPRReviewers (db : DB) (prID : String) : List String :=
  ((db.pr_reviewers.filter (fun r => r.pull_request_id == prID)).insertionSort
    (fun a b => a.assigned_at ≤ b.assigned_at)).map (fun r => r.user_id)

/-- The scan of one `pull_requests` row into the entity, with the reviewer
list that `GetPullRequest` reads next. -/
def PullRequestRow.toPullRequest (p : PullRequestRow) (reviewers : List String) : PullRequest :=
  { ID := p.id, Name := p.name, AuthorID := p.author_id, Status := p.status,
    AssignedReviewers := reviewers, CreatedAt := some p.created_at, MergedAt := p.merged_at }

def Repo.GetPullRequest (db : DB) (prID : String) : Except Error PullRequest :=
  match db.pull_requests.find? (fun p => p.id == prID) with
  | some p => .ok (p.toPullRequest (Repo.GetPRReviewers db prID))
  | none => .error .sqlErrNoRows

def Repo.PRExists (db : DB) (prID : String) : Bool :=
  db.pull_requests.any (fun p => p.id == prID)

def Repo.UpdatePRStatus (db : DB) (prID status : String) (mergedAt : Option Nat) :
    Except Error DB :=
  if db.pull_requests.any (fun p => p.id == prID) then
    .ok { db with
          pull_requests := db.pull_requests.map
            (fun p => if p.id = prID then { p with status := status, merged_at := mergedAt } else p) }
  else .error .sqlErrNoRows

def Repo.RemoveReviewer (db : DB) (prID userID : String) : Except Error DB :=
  if db.pr_reviewers.any (fun r => r.pull_request_id == prID && r.user_id == userID) then
    .ok { db with
          pr_reviewers := db.pr_reviewers.filter
            (fun r => !(r.pull_request_id == prID && r.user_id == userID)) }
  else .error .sqlErrNoRows

/-- One transaction: delete the old assignment (the number of deleted rows is
not inspected), then insert the new one. -/
def Repo.ReplaceReviewer (db : DB) (prID oldUserID newUserID : String) (now : Nat) :
    Except Error DB :=
  Repo.AddReviewer
    { db with
      pr_reviewers := db.pr_reviewers.filter
        (fun r => !(r.pull_request_id == prID && r.user_id == oldUserID)) }
    prID newUserID now

/-- The join of `pull_requests` and `pr_reviewers` on the PR id, restricted to
the user, `order by pr.created_at desc`. -/
def Repo.GetUserReviews (db : DB) (userID : String) : List PullRequestShort :=
  (((db.pull_requests.map (fun p =>
      (db.pr_reviewers.filter
        (fun r => r.pull_request_id == p.id && r.user_id == userID)).map (fun _ => p))).flatten).insertionSort
    (fun a b => b.created_at ≤ a.created_at)).map
    (fun p => { ID := p.id, Name := p.name, AuthorID := p.author_id, Status := p.status })

/-! ## service -/

/-- The assignment `s[i], s[j] = s[j], s[i]` on a slice. -/
def swapAt {α : Type} (s : List α) (i j : Nat) : List α :=
  match s[i]?, s[j]? with
  | some a, some b => (s.set i b).set j a
  | _, _ => s

/-- The loop of `rand.Shuffle`, `for ; i > 0; i-- { j := Intn(i+1); swap(i, j) }`,
entered at loop index `i`, over the state `σ` that the callback `swap` acts on. -/
def shuffleFrom {σ : Type} (rnd : Nat → Nat) (swap : Nat → Nat → σ → σ) : Nat → σ → σ
  | 0, st => st
  | i + 1, st => shuffleFrom rnd swap i (swap (i + 1) (rnd (i + 1) % (i + 2)) st)

/-- The call `rand.Shuffle(n, swap)`: the loop starts at `i = n - 1`. -/
def randShuffle {σ : Type} (rnd : Nat → Nat) (n : Nat) (swap : Nat → Nat → σ → σ) (st : σ) : σ :=
  shuffleFrom rnd swap (n - 1) st

/-- The two slices `selectRandomReviewers` has in scope: the argument of the
caller and the local copy. -/
structure SelectFrame where
  candidates : List User
  shuffled : List User
deriving DecidableEq, Repr

/-- The body of `selectRandomReviewers`: the returned slice together with the
slices in scope when it returns. -/
def Service.selectRandomReviewersRun (rnd : Nat → Nat) (candidates : List User) (maxCount : Nat) :
    List User × SelectFrame :=
  if candidates.length = 0 then
    ([], { candidates := candidates, shuffled := [] })
  else
    let count := if candidates.length < maxCount then candidates.length else maxCount
    let fr : SelectFrame := { candidates := candidates, shuffled := candidates }
    let fr1 := randShuffle rnd fr.shuffled.length
      (fun i j f => { f with shuffled := swapAt f.shuffled i j }) fr
    (fr1.shuffled.take count, fr1)

def Service.selectRandomReviewers (rnd : Nat → Nat) (candidates : List User) (maxCount : Nat) :
    List User :=
  (Service.selectRandomReviewersRun rnd candidates maxCount).1

/-- The member loop of `CreateTeam`: the first failing upsert ends the call,
and the rows written before it stay. -/
def Service.upsertMembers (teamName : String) (now : Nat) : List TeamMember → DB → DB × Except Error Unit
  | [], db => (db, .ok ())
  | member :: rest, db =>
    match Repo.CreateOrUpdateUser db
        { ID := member.UserID, Username := member.Username, TeamName := teamName,
          IsActive := member.IsActive } now with
    | .error e => (db, .error e)
    | .ok db1 => Service.upsertMembers teamName now rest db1

def Service.CreateTeam (db : DB) (now : Nat) (team : Team) : DB × Except Error Unit :=
  if Repo.TeamExists db team.TeamName then (db, .error .ErrTeamExists)
  else
    match Repo.CreateTeam db team.TeamName with
    | .error e => (db, .error e)
    | .ok db1 => Service.upsertMembers team.TeamName now team.Members db1

def Service.GetTeam (db : DB) (teamName : String) : DB × Except Error Team :=
  match Repo.GetTeam db teamName with
  | .error .sqlErrNoRows => (db, .error .ErrNotFound)
  | r => (db, r)

def Service.SetUserActive (db : DB) (now : Nat) (userID : String) (isActive : Bool) :
    DB × Except Error User :=
  match Repo.GetUser db userID with
  | .error .sqlErrNoRows => (db, .error .ErrNotFound)
  | .error e => (db, .error e)
  | .ok user =>
    match Repo.SetUserActive db userID isActive now with
    | .error e => (db, .error e)
    | .ok db1 => (db1, .ok { user with IsActive := isActive })

def Service.CreatePullRequest (db : DB) (rnd : Nat → Nat) (now : Nat)
    (prID prName authorID : String) : DB × Except Error PullRequest :=
  if Repo.PRExists db prID then (db, .error .ErrPRExists)
  else
    match Repo.GetUser db authorID with
    | .error .sqlErrNoRows => (db, .error .ErrNotFound)
    | .error e => (db, .error e)
    | .ok author =>
      let candidates := Repo.GetActiveTeamMembers db author.TeamName [authorID]
      let reviewers := Service.selectRandomReviewers rnd candidates 2
      let reviewerIDs := reviewers.map (fun r => r.ID)
      let pr : PullRequest :=
        { ID := prID, Name := prName, AuthorID := authorID, Status := StatusOpen,
          AssignedReviewers := reviewerIDs, CreatedAt := none, MergedAt := none }
      match Repo.CreatePullRequest db pr reviewerIDs now with
      | .error e => (db, .error e)
      | .ok db1 => (db1, Repo.GetPullRequest db1 prID)

def Service.MergePullRequest (db : DB) (now : Nat) (prID : String) :
    DB × Except Error PullRequest :=
  match Repo.GetPullRequest db prID with
  | .error .sqlErrNoRows => (db, .error .ErrNotFound)
  | .error e => (db, .error e)
  | .ok pr =>
    if pr.Status = StatusMerged then (db, .ok pr)
    else
      match Repo.UpdatePRStatus db prID StatusMerged (some now) with
      | .error e => (db, .error e)
      | .ok db1 => (db1, Repo.GetPullRequest db1 prID)

def Service.ReassignReviewer (db : DB) (rnd : Nat → Nat) (now : Nat) (prID oldUserID : String) :
    DB × Except Error (PullRequest × String) :=
  match Repo.GetPullRequest db prID with
  | .error .sqlErrNoRows => (db, .error .ErrNotFound)
  | .error e => (db, .error e)
  | .ok pr =>
    if pr.Status = StatusMerged then (db, .error .ErrPRMerged)
    else if ¬ pr.AssignedReviewers.any (fun reviewerID => reviewerID == oldUserID) then
      (db, .error .ErrNotAssigned)
    else
      match Repo.GetUser db oldUserID with
      | .error .sqlErrNoRows => (db, .error .ErrNotFound)
      | .error e => (db, .error e)
      | .ok oldUser =>
        let excludeIDs := [pr.AuthorID] ++ pr.AssignedReviewers
        let candidates := Repo.GetActiveTeamMembers db oldUser.TeamName excludeIDs
        if candidates.length = 0 then (db, .error .ErrNoCandidate)
        else
          match Service.selectRandomReviewers rnd candidates 1 with
          | [] => (db, .error .indexOutOfRange)
          | newReviewer :: _ =>
            match Repo.ReplaceReviewer db prID oldUserID newReviewer.ID now with
            | .error e => (db, .error e)
            | .ok db1 =>
              match Repo.GetPullRequest db1 prID with
              | .error e => (db1, .error e)
              | .ok updatedPR => (db1, .ok (updatedPR, newReviewer.ID))

def Service.GetUserReviews (db : DB) (userID : String) : DB × Except Error (List PullRequestShort) :=
  match Repo.GetUser db userID with
  | .error .sqlErrNoRows => (db, .error .ErrNotFound)
  | .error e => (db, .error e)
  | .ok _ => (db, .ok (Repo.GetUserReviews db userID))

/-! ## stores used as concrete inputs -/

/-- The store after `CreateTeam("alpha", [A active, B active, C inactive])` at time 1. -/
def teamStore : DB :=
  { teams := ["alpha"],
    users := [⟨"A", "Alice", "alpha", true, 1⟩, ⟨"B", "Bob", "alpha", true, 1⟩,
              ⟨"C", "Carol", "alpha", false, 1⟩],
    pull_requests := [],
    pr_reviewers := [] }

/-- The store `teamStore` after `CreatePullRequest("pr1", "title", "A")` at time 2. -/
def openStore : DB :=
  { teamStore with
    pull_requests := [⟨"pr1", "title", "A", "OPEN", 2, none⟩],
    pr_reviewers := [⟨"pr1", "B", 2⟩] }

/-- The store `openStore` after `SetUserActive("C", true)` at time 3. -/
def activeStore : DB :=
  { openStore with
    users := [⟨"A", "Alice", "alpha", true, 1⟩, ⟨"B", "Bob", "alpha", true, 1⟩,
              ⟨"C", "Carol", "alpha", true, 3⟩] }

/-- The store `openStore` after `MergePullRequest("pr1")` at time 3. -/
def mergedStore : DB :=
  { openStore with pull_requests := [⟨"pr1", "title", "A", "MERGED", 2, some 3⟩] }

/-- The store `openStore` after `CreateTeam("beta", [B active, D active])` at time 3:
the reviewer B of `pr1` now belongs to team beta. -/
def movedStore : DB :=
  { teams := ["alpha", "beta"],
    users := [⟨"A", "Alice", "alpha", true, 1⟩, ⟨"B", "Bob", "beta", true, 3⟩,
              ⟨"C", "Carol", "alpha", false, 1⟩, ⟨"D", "Dan", "beta", true, 3⟩],
    pull_requests := [⟨"pr1", "title", "A", "OPEN", 2, none⟩],
    pr_reviewers := [⟨"pr1", "B", 2⟩] }

/-- The reviewer ids `CreatePullRequest` draws for the author row `author`. -/
def drawnReviewerIDs (db : DB) (rnd : Nat → Nat) (author : UserRow) : List String :=
  (Service.selectRandomReviewers rnd
    (Repo.GetActiveTeamMembers db author.team_name [author.id]) 2).map (fun r => r.ID)

/-! ## notions used by the invariants -/

/-- The user ids of the assignment rows of a pull request, in table order. -/
def assignedIDs (db : DB) (prID : String) : List String :=
  (db.pr_reviewers.filter (fun r => r.pull_request_id == prID)).map (fun r => r.user_id)

/-- The summary `GetUserReviews` scans out of a joined row. -/
def PullRequestRow.toShort (p : PullRequestRow) : PullRequestShort :=
  { ID := p.id, Name := p.name, AuthorID := p.author_id, Status := p.status }

/-- The store `activeStore` after `ReassignReviewer("pr1", "B")` at time 4 and
`CreatePullRequest("pr2", "second", "B")` at time 5 with the draws `rnd i = i`. -/
def twoPRStore : DB :=
  { activeStore with
    pull_requests := [⟨"pr1", "title", "A", "OPEN", 2, none⟩, ⟨"pr2", "second", "B", "OPEN", 5, none⟩],
    pr_reviewers := [⟨"pr1", "C", 4⟩, ⟨"pr2", "A", 5⟩, ⟨"pr2", "C", 5⟩] }

/-! ## the service as a transition system -/

/-- One call of the service, with the clock reading and the run of the random
generator it meets. -/
inductive Call where
  | CreateTeam (now : Nat) (team : Team)
  | GetTeam (teamName : String)
  | SetUserActive (now : Nat) (userID : String) (isActive : Bool)
  | CreatePullRequest (rnd : Nat → Nat) (now : Nat) (prID prName authorID : String)
  | MergePullRequest (now : Nat) (prID : String)
  | ReassignReviewer (rnd : Nat → Nat) (now : Nat) (prID oldUserID : String)
  | GetUserReviews (userID : String)

/-- The store a call leaves behind, whether it succeeds or fails. -/
def Call.run (db : DB) : Call → DB
  | .CreateTeam now team => (Service.CreateTeam db now team).1
  | .GetTeam teamName => (Service.GetTeam db teamName).1
  | .SetUserActive now userID isActive => (Service.SetUserActive db now userID isActive).1
  | .CreatePullRequest rnd now prID prName authorID =>
    (Service.CreatePullRequest db rnd now prID prName authorID).1
  | .MergePullRequest now prID => (Service.MergePullRequest db now prID).1
  | .ReassignReviewer rnd now prID oldUserID =>
    (Service.ReassignReviewer db rnd now prID oldUserID).1
  | .GetUserReviews userID => (Service.GetUserReviews db userID).1

/-- The stores the service can reach from the empty store. -/
inductive Reachable : DB → Prop where
  | empty : Reachable DB.empty
  | step (db : DB) (c : Call) : Reachable db → Reachable (c.run db)

/-! ## the shuffle permutes the copy -/

theorem cons_set_perm {α : Type} (x b : α) : ∀ (xs : List α) (j : Nat), xs[j]? = some b →
    (b :: xs.set j x).Perm (x :: xs)
  | [], j, h => by simp at h
  | y :: t, 0, h => by
    simp at h
    subst h
    simpa using List.Perm.swap x y t
  | y :: t, j + 1, h => by
    simp at h
    have ih := cons_set_perm x b t j h
    simp only [List.set_cons_succ]
    exact ((List.Perm.swap y b _).trans (ih.cons y)).trans (List.Perm.swap x y t)

theorem swapAt_perm {α : Type} : ∀ (s : List α) (i j : Nat), (swapAt s i j).Perm s
  | [], i, j => by simp [swapAt]
  | x :: xs, 0, 0 => by simp [swapAt]
  | x :: xs, 0, j + 1 => by
    unfold swapAt
    cases h : xs[j]? with
    | none => simp [h]
    | some b => simpa [h] using cons_set_perm x b xs j h
  | x :: xs, i + 1, 0 => by
    unfold swapAt
    cases h : xs[i]? with
    | none => simp [h]
    | some a => simpa [h] using cons_set_perm x a xs i h
  | x :: xs, i + 1, j + 1 => by
    have ih := swapAt_perm xs i j
    unfold swapAt at ih ⊢
    cases hi : xs[i]? with
    | none => simp [hi]
    | some a =>
      cases hj : xs[j]? with
      | none => simp [hi, hj]
      | some b =>
        simp only [hi, hj] at ih
        simpa [hi, hj] using ih

theorem shuffleFrom_frame (rnd : Nat → Nat) : ∀ (i : Nat) (fr : SelectFrame),
    (shuffleFrom rnd (fun i j f => { f with shuffled := swapAt f.shuffled i j }) i fr).shuffled.Perm
        fr.shuffled ∧
    (shuffleFrom rnd (fun i j (f : SelectFrame) => { f with shuffled := swapAt f.shuffled i j }) i fr).candidates
        = fr.candidates
  | 0, fr => by simp [shuffleFrom]
  | i + 1, fr => by
    have ih := shuffleFrom_frame rnd i
      { fr with shuffled := swapAt fr.shuffled (i + 1) (rnd (i + 1) % (i + 2)) }
    simp only [shuffleFrom]
    exact ⟨ih.1.trans (swapAt_perm _ _ _), ih.2⟩

theorem selectRun_shape (rnd : Nat → Nat) (candidates : List User) (maxCount : Nat) :
    ∃ p : List User, p.Perm candidates ∧
      Service.selectRandomReviewersRun rnd candidates maxCount =
        (p.take (min maxCount candidates.length), { candidates := candidates, shuffled := p }) := by
  unfold Service.selectRandomReviewersRun
  by_cases h : candidates.length = 0
  · have : candidates = [] := List.length_eq_zero.mp h
    subst this
    exact ⟨[], List.Perm.refl _, by simp⟩
  · have hs := shuffleFrom_frame rnd (candidates.length - 1)
      { candidates := candidates, shuffled := candidates }
    refine ⟨_, hs.1, ?_⟩
    simp only [h, if_false, randShuffle]
    have hc : (if candidates.length < maxCount then candidates.length else maxCount)
        = min maxCount candidates.length := by
      split <;> omega
    rw [hc]
    refine Prod.ext rfl ?_
    simp only
    cases hfr : shuffleFrom rnd (fun i j (f : SelectFrame) => { f with shuffled := swapAt f.shuffled i j })
        (candidates.length - 1) { candidates := candidates, shuffled := candidates } with
    | mk c s =>
      rw [hfr] at hs
      simp at hs
      simp [hs.2]

theorem select_shape (rnd : Nat → Nat) (candidates : List User) (maxCount : Nat) :
    ∃ p : List User, p.Perm candidates ∧
      Service.selectRandomReviewers rnd candidates maxCount =
        p.take (min maxCount candidates.length) := by
  obtain ⟨p, hp, h⟩ := selectRun_shape rnd candidates maxCount
  exact ⟨p, hp, by simp [Service.selectRandomReviewers, h]⟩

/-! ## reads of keyed tables -/

theorem any_id_of_mem {α : Type} (l : List α) (f : α → String) (k : String) (x : α)
    (hx : x ∈ l) (hk : f x = k) : l.any (fun y => f y == k) = true := by
  simp only [List.any_eq_true, beq_iff_eq]
  exact ⟨x, hx, hk⟩

theorem find_of_keyed {α : Type} (f : α → String) : ∀ (l : List α) (x : α),
    (l.map f).Nodup → x ∈ l → l.find? (fun y => f y == f x) = some x
  | [], x, _, hx => by simp at hx
  | y :: t, x, hn, hx => by
    rw [List.map_cons, List.nodup_cons] at hn
    rcases List.mem_cons.mp hx with rfl | hx
    · simp
    · have hne : f y ≠ f x := by
        intro he
        exact hn.1 (he ▸ List.mem_map_of_mem f hx)
      simp [List.find?_cons, hne, find_of_keyed f t x hn.2 hx]

theorem GetPullRequest_of_mem (db : DB) (p : PullRequestRow) (hs : db.Schema)
    (hp : p ∈ db.pull_requests) :
    Repo.GetPullRequest db p.id = .ok (p.toPullRequest (Repo.GetPRReviewers db p.id)) := by
  have h := find_of_keyed (fun q : PullRequestRow => q.id) db.pull_requests p hs.2.2.2.1 hp
  simp only [Repo.GetPullRequest, h]

theorem GetUser_of_mem (db : DB) (u : UserRow) (hs : db.Schema) (hu : u ∈ db.users) :
    Repo.GetUser db u.id = .ok u.toUser := by
  have h := find_of_keyed (fun q : UserRow => q.id) db.users u hs.2.1 hu
  simp only [Repo.GetUser, h]

theorem find_id_of_mem {α : Type} (f : α → String) (k : String) : ∀ (l : List α) (x : α),
    x ∈ l → f x = k → ∃ y, l.find? (fun z => f z == k) = some y ∧ f y = k
  | [], x, hx, _ => by simp at hx
  | z :: t, x, hx, hk => by
    by_cases hz : f z = k
    · exact ⟨z, by simp [List.find?_cons, hz], hz⟩
    · rcases List.mem_cons.mp hx with rfl | hx
      · exact absurd hk hz
      · obtain ⟨y, hy, hyk⟩ := find_id_of_mem f k t x hx hk
        exact ⟨y, by simp [List.find?_cons, hz, hy], hyk⟩

theorem find_after_status_update (prID status : String) (m : Option Nat) :
    ∀ (l : List PullRequestRow) (q : PullRequestRow),
    l.find? (fun z => z.id == prID) = some q →
    (l.map (fun z => if z.id = prID then { z with status := status, merged_at := m } else z)).find?
        (fun z => z.id == prID) = some { q with status := status, merged_at := m }
  | [], q, h => by simp at h
  | z :: t, q, h => by
    by_cases hz : z.id = prID
    · simp [List.find?_cons, hz] at h
      subst h
      simp [List.find?_cons, hz]
    · have hz1 : (z.id == prID) = false := by simp [hz]
      rw [List.find?_cons, hz1] at h
      simp only [List.map_cons, hz, if_false, List.find?_cons, hz1]
      exact find_after_status_update prID status m t q h

theorem MergePullRequest_of_merged (db : DB) (now : Nat) (prID : String) (q : PullRequestRow)
    (hq : db.pull_requests.find? (fun z => z.id == prID) = some q)
    (hm : q.status = StatusMerged) :
    Service.MergePullRequest db now prID
      = (db, .ok (q.toPullRequest (Repo.GetPRReviewers db prID))) := by
  simp only [Service.MergePullRequest, Repo.GetPullRequest, hq, PullRequestRow.toPullRequest, hm,
    if_true]

/-- The store after `update pull_requests set status = 'MERGED', merged_at = now`. -/
theorem MergePullRequest_of_unmerged (db : DB) (now : Nat) (prID : String) (q : PullRequestRow)
    (hq : db.pull_requests.find? (fun z => z.id == prID) = some q)
    (hm : q.status ≠ StatusMerged) :
    Service.MergePullRequest db now prID
      = ({ db with
            pull_requests := db.pull_requests.map (fun z =>
              if z.id = prID then { z with status := StatusMerged, merged_at := some now } else z) },
         .ok (({ q with status := StatusMerged, merged_at := some now } : PullRequestRow).toPullRequest
            (Repo.GetPRReviewers db prID))) := by
  have hany : db.pull_requests.any (fun z => z.id == prID) = true := by
    rw [List.any_eq_true]
    exact ⟨q, List.mem_of_find?_eq_some hq, by simpa using List.find?_some hq⟩
  have hq1 := find_after_status_update prID StatusMerged (some now) _ q hq
  simp only [Service.MergePullRequest, Repo.GetPullRequest, hq, PullRequestRow.toPullRequest, hm,
    if_false, Repo.UpdatePRStatus, hany, if_true, hq1, Repo.GetPRReviewers]

/-! ## what a successful reassignment went through -/

theorem GetPullRequest_ok_inv (db : DB) (prID : String) (pr : PullRequest)
    (h : Repo.GetPullRequest db prID = .ok pr) :
    ∃ q, db.pull_requests.find? (fun z => z.id == prID) = some q ∧
      pr = q.toPullRequest (Repo.GetPRReviewers db prID) := by
  unfold Repo.GetPullRequest at h
  split at h
  · rename_i q hq
    exact ⟨q, hq, by injection h with h; exact h.symm⟩
  · cases h

theorem GetUser_ok_inv (db : DB) (id : String) (u : User) (h : Repo.GetUser db id = .ok u) :
    ∃ o, db.users.find? (fun z => z.id == id) = some o ∧ u = o.toUser := by
  unfold Repo.GetUser at h
  split at h
  · rename_i o ho
    exact ⟨o, ho, by injection h with h; exact h.symm⟩
  · cases h

theorem select_one_mem (rnd : Nat → Nat) (candidates : List User) (u : User) (rest : List User)
    (h : Service.selectRandomReviewers rnd candidates 1 = u :: rest) : u ∈ candidates := by
  obtain ⟨p, hp, hsel⟩ := select_shape rnd candidates 1
  have : u ∈ p.take (min 1 candidates.length) := by
    rw [← hsel, h]
    exact List.mem_cons_self _ _
  exact hp.subset (List.mem_of_mem_take this)

/-- What a successful `ReassignReviewer` went through. -/
theorem ReassignReviewer_ok_inv (db : DB) (rnd : Nat → Nat) (now : Nat) (prID oldUserID : String)
    (db1 : DB) (updatedPR : PullRequest) (newID : String)
    (h : Service.ReassignReviewer db rnd now prID oldUserID = (db1, .ok (updatedPR, newID))) :
    ∃ q o, db.pull_requests.find? (fun z => z.id == prID) = some q ∧
      q.status ≠ StatusMerged ∧
      oldUserID ∈ Repo.GetPRReviewers db prID ∧
      db.users.find? (fun z => z.id == oldUserID) = some o ∧
      (∃ u ∈ Repo.GetActiveTeamMembers db o.team_name
          ([q.author_id] ++ Repo.GetPRReviewers db prID), u.ID = newID) ∧
      Repo.ReplaceReviewer db prID oldUserID newID now = .ok db1 ∧
      Repo.GetPullRequest db1 prID = .ok updatedPR := by
  unfold Service.ReassignReviewer at h
  split at h
  · cases h
  · cases h
  · rename_i pr hpr
    obtain ⟨q, hq, rfl⟩ := GetPullRequest_ok_inv db prID pr hpr
    split at h
    · cases h
    · rename_i hm
      split at h
      · cases h
      · rename_i hassigned
        split at h
        · cases h
        · cases h
        · rename_i oldUser hold
          obtain ⟨o, ho, rfl⟩ := GetUser_ok_inv db oldUserID oldUser hold
          simp only at h
          split at h
          · cases h
          · split at h
            · cases h
            · rename_i newReviewer rest hsel
              split at h
              · cases h
              · rename_i db2 hrep
                split at h
                · cases h
                · rename_i upd hupd
                  simp only [Prod.mk.injEq, Except.ok.injEq] at h
                  obtain ⟨rfl, rfl, rfl⟩ := h
                  refine ⟨q, o, hq, hm, ?_, ho, ⟨newReviewer, ?_, rfl⟩, hrep, hupd⟩
                  · simpa [PullRequestRow.toPullRequest] using hassigned
                  · exact select_one_mem rnd _ _ _ hsel

theorem mem_GetActiveTeamMembers (db : DB) (teamName : String) (ex : List String) (u : User)
    (h : u ∈ Repo.GetActiveTeamMembers db teamName ex) :
    ∃ r ∈ db.users, r.toUser = u ∧ r.team_name = teamName ∧ r.is_active = true ∧ r.id ∉ ex := by
  unfold Repo.GetActiveTeamMembers at h
  split at h
  · simp only [List.mem_map, List.mem_filter, Bool.and_eq_true, beq_iff_eq, Bool.not_eq_true'] at h
    obtain ⟨r, ⟨hr, ⟨ht, ha⟩, hx⟩, rfl⟩ := h
    refine ⟨r, hr, rfl, ht, ha, ?_⟩
    intro hmem
    have hc : ex.contains r.id = true := List.elem_iff.mpr hmem
    rw [hc] at hx
    cases hx
  · rename_i hlen
    have : ex = [] := List.length_eq_zero.mp (by omega)
    subst this
    simp only [List.mem_map, List.mem_filter, Bool.and_eq_true, beq_iff_eq] at h
    obtain ⟨r, ⟨hr, ht, ha⟩, rfl⟩ := h
    exact ⟨r, hr, rfl, ht, ha, by simp⟩

/-- The user ids assigned to a pull request, in table order. -/
theorem GetPRReviewers_perm (db : DB) (prID : String) :
    (Repo.GetPRReviewers db prID).Perm
      ((db.pr_reviewers.filter (fun r => r.pull_request_id == prID)).map (fun r => r.user_id)) := by
  unfold Repo.GetPRReviewers
  exact (List.perm_insertionSort _ _).map _

theorem reviewer_ids_nodup (prID : String) : ∀ (rows : List ReviewerRow),
    (rows.map (fun r => (r.pull_request_id, r.user_id))).Nodup →
    ((rows.filter (fun r => r.pull_request_id == prID)).map (fun r => r.user_id)).Nodup
  | [], _ => by simp
  | r :: t, h => by
    rw [List.map_cons, List.nodup_cons] at h
    have ih := reviewer_ids_nodup prID t h.2
    by_cases hr : r.pull_request_id = prID
    · have hb : (r.pull_request_id == prID) = true := by simp [hr]
      rw [List.filter_cons, hb]
      simp only [if_true, List.map_cons, List.nodup_cons]
      refine ⟨?_, ih⟩
      intro hmem
      simp only [List.mem_map, List.mem_filter, beq_iff_eq] at hmem
      obtain ⟨r2, ⟨hr2, hp2⟩, hu2⟩ := hmem
      apply h.1
      simp only [List.mem_map]
      exact ⟨r2, hr2, by rw [hp2, hu2, hr]⟩
    · have hb : (r.pull_request_id == prID) = false := by simp [hr]
      rw [List.filter_cons, hb]
      simpa using ih

theorem reviewer_ids_after_delete (prID oldUserID : String) : ∀ (rows : List ReviewerRow),
    ((rows.filter (fun r => !(r.pull_request_id == prID && r.user_id == oldUserID))).filter
        (fun r => r.pull_request_id == prID)).map (fun r => r.user_id)
      = (((rows.filter (fun r => r.pull_request_id == prID)).map (fun r => r.user_id)).filter
          (fun id => id != oldUserID))
  | [] => by simp
  | r :: t => by
    have ih := reviewer_ids_after_delete prID oldUserID t
    by_cases hr : r.pull_request_id = prID <;> by_cases hu : r.user_id = oldUserID <;>
      simp [List.filter_cons, hr, hu] <;> simpa using ih

theorem ReplaceReviewer_ok_inv (db : DB) (prID oldUserID newUserID : String) (now : Nat) (db1 : DB)
    (h : Repo.ReplaceReviewer db prID oldUserID newUserID now = .ok db1) :
    db1.teams = db.teams ∧ db1.users = db.users ∧ db1.pull_requests = db.pull_requests ∧
    db1.pr_reviewers =
      db.pr_reviewers.filter (fun r => !(r.pull_request_id == prID && r.user_id == oldUserID))
        ++ [{ pull_request_id := prID, user_id := newUserID, assigned_at := now }] := by
  unfold Repo.ReplaceReviewer Repo.AddReviewer at h
  split at h
  · cases h
  · injection h with h
    subst h
    exact ⟨rfl, rfl, rfl, rfl⟩

/-- The reviewer list read after a committed replacement. -/
theorem GetPRReviewers_after_replace (db : DB) (prID oldUserID newUserID : String) (now : Nat)
    (db1 : DB) (h : Repo.ReplaceReviewer db prID oldUserID newUserID now = .ok db1) :
    (Repo.GetPRReviewers db1 prID).Perm
      ((((db.pr_reviewers.filter (fun r => r.pull_request_id == prID)).map
          (fun r => r.user_id)).filter (fun id => id != oldUserID)) ++ [newUserID]) := by
  obtain ⟨_, _, _, hrows⟩ := ReplaceReviewer_ok_inv db prID oldUserID newUserID now db1 h
  refine (GetPRReviewers_perm db1 prID).trans ?_
  rw [hrows, List.filter_append, List.map_append, reviewer_ids_after_delete]
  simp

/-! ## what a pull request creation writes -/

/-- The assignment rows written by the reviewer loop of `Repo.CreatePullRequest`. -/
theorem insert_reviewers_ok (prID : String) (now : Nat) : ∀ (ids : List String) (d : DB),
    ids.Nodup →
    (∀ r ∈ d.pr_reviewers, r.pull_request_id = prID → r.user_id ∉ ids) →
    ids.foldlM (fun d revId => Repo.AddReviewer d prID revId now) d
      = .ok { d with
              pr_reviewers := d.pr_reviewers ++
                ids.map (fun i => { pull_request_id := prID, user_id := i, assigned_at := now }) }
  | [], d, _, _ => by simp [pure, Except.pure]
  | i :: t, d, hn, hfresh => by
    rw [List.nodup_cons] at hn
    have hany : d.pr_reviewers.any (fun r => r.pull_request_id == prID && r.user_id == i) = false := by
      rw [List.any_eq_false]
      intro r hr
      simp only [Bool.and_eq_true, beq_iff_eq, not_and]
      intro hp hu
      exact hfresh r hr hp (hu ▸ List.mem_cons_self _ _)
    have hstep : Repo.AddReviewer d prID i now
        = .ok { d with
                pr_reviewers := d.pr_reviewers ++
                  [{ pull_request_id := prID, user_id := i, assigned_at := now }] } := by
      simp [Repo.AddReviewer, hany]
    have ih := insert_reviewers_ok prID now t
      { d with
        pr_reviewers := d.pr_reviewers ++
          [{ pull_request_id := prID, user_id := i, assigned_at := now }] } hn.2
      (by
        intro r hr hp
        simp only [List.mem_append, List.mem_singleton] at hr
        rcases hr with hr | rfl
        · exact fun hm => hfresh r hr hp (List.mem_cons_of_mem _ hm)
        · exact hn.1)
    rw [List.foldlM_cons, hstep]
    simp only [bind, Except.bind]
    rw [ih]
    simp

theorem active_candidates_ids_nodup (db : DB) (teamName : String) (ex : List String)
    (hkey : (db.users.map (fun u => u.id)).Nodup) :
    ((Repo.GetActiveTeamMembers db teamName ex).map (fun u => u.ID)).Nodup := by
  unfold Repo.GetActiveTeamMembers
  split
  · rw [List.map_map]
    exact (hkey.sublist ((List.filter_sublist _).map _))
  · rw [List.map_map]
    exact (hkey.sublist ((List.filter_sublist _).map _))

theorem no_rows_of_unused_id (db : DB) (prID : String) (hs : db.Schema)
    (hnew : Repo.PRExists db prID = false) :
    db.pr_reviewers.filter (fun r => r.pull_request_id == prID) = [] := by
  rw [List.filter_eq_nil_iff]
  intro r hr
  obtain ⟨p, hp, hpid⟩ := hs.2.2.2.2.2 r hr
  simp only [beq_iff_eq]
  intro he
  have : Repo.PRExists db prID = true := any_id_of_mem _ _ _ p hp (hpid.trans he)
  rw [hnew] at this
  cases this

theorem find_append_fresh (prID : String) (row : PullRequestRow) (hrow : row.id = prID) :
    ∀ (l : List PullRequestRow), l.any (fun p => p.id == prID) = false →
    (l ++ [row]).find? (fun p => p.id == prID) = some row
  | [], _ => by simp [hrow]
  | z :: t, h => by
    simp only [List.any_cons, Bool.or_eq_false_iff] at h
    simp only [List.cons_append, List.find?_cons, h.1]
    exact find_append_fresh prID row hrow t h.2

theorem drawnReviewerIDs_nodup (db : DB) (rnd : Nat → Nat) (author : UserRow) (hs : db.Schema) :
    (drawnReviewerIDs db rnd author).Nodup := by
  unfold drawnReviewerIDs
  obtain ⟨p, hp, hsel⟩ := select_shape rnd (Repo.GetActiveTeamMembers db author.team_name [author.id]) 2
  rw [hsel]
  have hc := active_candidates_ids_nodup db author.team_name [author.id] hs.2.1
  have hpn : (p.map (fun r => r.ID)).Nodup := (hp.map _).nodup_iff.mpr hc
  exact hpn.sublist ((List.take_sublist _ _).map _)

theorem drawnReviewerIDs_not_author (db : DB) (rnd : Nat → Nat) (author : UserRow) :
    author.id ∉ drawnReviewerIDs db rnd author := by
  unfold drawnReviewerIDs
  obtain ⟨p, hp, hsel⟩ := select_shape rnd (Repo.GetActiveTeamMembers db author.team_name [author.id]) 2
  rw [hsel]
  intro hmem
  simp only [List.mem_map] at hmem
  obtain ⟨u, hu, hid⟩ := hmem
  obtain ⟨r, _, rfl, _, _, hex⟩ :=
    mem_GetActiveTeamMembers db _ _ u (hp.subset (List.mem_of_mem_take hu))
  exact hex (by simpa [UserRow.toUser] using hid)

theorem drawnReviewerIDs_length (db : DB) (rnd : Nat → Nat) (author : UserRow) :
    (drawnReviewerIDs db rnd author).length
      = min 2 (db.users.filter
          (fun u => u.team_name == author.team_name && u.is_active && u.id != author.id)).length := by
  unfold drawnReviewerIDs
  obtain ⟨p, hp, hsel⟩ := select_shape rnd (Repo.GetActiveTeamMembers db author.team_name [author.id]) 2
  rw [hsel, List.length_map, List.length_take, hp.length_eq]
  have hlen : (Repo.GetActiveTeamMembers db author.team_name [author.id]).length
      = (db.users.filter
          (fun u => u.team_name == author.team_name && u.is_active && u.id != author.id)).length := by
    simp only [Repo.GetActiveTeamMembers, List.length_singleton, Nat.lt_one_iff, if_true,
      List.length_map, Nat.zero_lt_one]
    congr 2
    funext u
    cases hb : (u.id == author.id) <;> simp [hb, bne, List.contains, List.elem]
  rw [hlen]
  omega

/-- The store and the pull request a `CreatePullRequest` call on an unused id
and a stored author ends with. -/
theorem CreatePullRequest_run (db : DB) (rnd : Nat → Nat) (now : Nat) (prID prName : String)
    (author : UserRow) (hs : db.Schema) (hnew : Repo.PRExists db prID = false)
    (hauthor : author ∈ db.users) :
    ∃ db1 pr, Service.CreatePullRequest db rnd now prID prName author.id = (db1, .ok pr) ∧
      pr.AssignedReviewers = Repo.GetPRReviewers db1 prID ∧
      pr.AssignedReviewers.Perm (drawnReviewerIDs db rnd author) ∧
      pr.ID = prID ∧ pr.AuthorID = author.id ∧ pr.Status = StatusOpen ∧
      db1.teams = db.teams ∧ db1.users = db.users ∧
      db1.pull_requests = db.pull_requests ++
        [{ id := prID, name := prName, author_id := author.id, status := StatusOpen,
           created_at := now, merged_at := none }] ∧
      db1.pr_reviewers = db.pr_reviewers ++
        (drawnReviewerIDs db rnd author).map
          (fun i => { pull_request_id := prID, user_id := i, assigned_at := now }) := by
  have hany : db.pull_requests.any (fun p => p.id == prID) = false := hnew
  have hnone := no_rows_of_unused_id db prID hs hnew
  have hins := insert_reviewers_ok prID now (drawnReviewerIDs db rnd author)
    { db with
      pull_requests := db.pull_requests ++
        [{ id := prID, name := prName, author_id := author.id, status := StatusOpen,
           created_at := now, merged_at := none }] }
    (drawnReviewerIDs_nodup db rnd author hs)
    (by
      intro r hr hp
      have : r ∈ db.pr_reviewers.filter (fun r => r.pull_request_id == prID) := by
        simp only [List.mem_filter, beq_iff_eq]
        exact ⟨hr, hp⟩
      rw [hnone] at this
      cases this)
  have hfind := find_append_fresh prID
    { id := prID, name := prName, author_id := author.id, status := StatusOpen,
      created_at := now, merged_at := none } rfl db.pull_requests hany
  refine ⟨(⟨db.teams, db.users,
      db.pull_requests ++ [(⟨prID, prName, author.id, StatusOpen, now, none⟩ : PullRequestRow)],
      db.pr_reviewers ++
        (drawnReviewerIDs db rnd author).map (fun i => (⟨prID, i, now⟩ : ReviewerRow))⟩ : DB),
    PullRequestRow.toPullRequest ⟨prID, prName, author.id, StatusOpen, now, none⟩
      (Repo.GetPRReviewers (⟨db.teams, db.users,
        db.pull_requests ++ [(⟨prID, prName, author.id, StatusOpen, now, none⟩ : PullRequestRow)],
        db.pr_reviewers ++
          (drawnReviewerIDs db rnd author).map (fun i => (⟨prID, i, now⟩ : ReviewerRow))⟩ : DB) prID),
    ?_, rfl, ?_, rfl, rfl, rfl, rfl, rfl, rfl, rfl⟩
  · simp only [Service.CreatePullRequest, hnew, GetUser_of_mem db author hs hauthor,
      Repo.CreatePullRequest, hany, UserRow.toUser]
    simp only [drawnReviewerIDs] at hins
    simp only [Bool.false_eq_true, if_false, hins, Repo.GetPullRequest, hfind]
    rfl
  · simp only [PullRequestRow.toPullRequest]
    refine (GetPRReviewers_perm _ prID).trans ?_
    simp only [List.filter_append, hnone, List.nil_append, List.map_append, List.map_nil]
    rw [List.filter_eq_self.mpr]
    · simp [List.map_map, Function.comp_def]
    · intro r hr
      simp only [List.mem_map] at hr
      obtain ⟨i, _, rfl⟩ := hr
      simp

theorem GetActiveTeamMembers_nil (db : DB) (teamName : String) (ex : List String)
    (h : ∀ u ∈ db.users, u.team_name = teamName → u.is_active = true → u.id ∈ ex) :
    Repo.GetActiveTeamMembers db teamName ex = [] := by
  rw [List.eq_nil_iff_forall_not_mem]
  intro u hu
  obtain ⟨r, hr, _, ht, ha, hex⟩ := mem_GetActiveTeamMembers db teamName ex u hu
  exact hex (h r hr ht ha)

/-! ## the schema is kept by every call -/

theorem map_id_of_update {α : Type} (f : α → String) (g : α → α) (hg : ∀ x, f (g x) = f x) :
    ∀ l : List α, (l.map g).map f = l.map f
  | [] => rfl
  | x :: t => by simp [hg, map_id_of_update f g hg t]

theorem Schema_CreateTeam (db db1 : DB) (teamName : String) (hs : db.Schema)
    (h : Repo.CreateTeam db teamName = .ok db1) : db1.Schema := by
  unfold Repo.CreateTeam at h
  split at h
  · cases h
  · rename_i hnot
    injection h with h
    subst h
    obtain ⟨h1, h2, h3, h4, h5, h6⟩ := hs
    refine ⟨?_, h2, ?_, h4, h5, h6⟩
    · exact List.Nodup.append h1 (List.nodup_singleton _) (by simpa using hnot)
    · intro u hu
      exact List.mem_append_left _ (h3 u hu)

theorem Schema_CreateOrUpdateUser (db db1 : DB) (user : User) (now : Nat) (hs : db.Schema)
    (h : Repo.CreateOrUpdateUser db user now = .ok db1) : db1.Schema := by
  unfold Repo.CreateOrUpdateUser at h
  obtain ⟨h1, h2, h3, h4, h5, h6⟩ := hs
  simp only at h
  split at h
  · rename_i hteam
    split at h
    · injection h with h
      subst h
      refine ⟨h1, ?_, ?_, h4, h5, h6⟩
      · have : (db.users.map (fun u => if u.id = user.ID then
            ({ id := user.ID, username := user.Username, team_name := user.TeamName,
               is_active := user.IsActive, updated_at := now } : UserRow) else u)).map
              (fun u => u.id) = db.users.map (fun u => u.id) := by
          apply map_id_of_update
          intro x
          by_cases hx : x.id = user.ID <;> simp [hx]
        simp only [this]
        exact h2
      · intro u hu
        simp only [List.mem_map] at hu
        obtain ⟨x, hx, rfl⟩ := hu
        by_cases hxe : x.id = user.ID
        · simpa [hxe] using hteam
        · simpa [hxe] using h3 x hx
    · rename_i hnone
      injection h with h
      subst h
      refine ⟨h1, ?_, ?_, h4, h5, h6⟩
      · simp only [List.map_append, List.map_cons, List.map_nil]
        refine List.Nodup.append h2 (List.nodup_singleton _) ?_
        simp only [List.disjoint_singleton, List.mem_map, not_exists, not_and]
        intro x hx hxe
        apply hnone
        simp only [List.any_eq_true, beq_iff_eq]
        exact ⟨x, hx, hxe⟩
      · intro u hu
        simp only [List.mem_append, List.mem_singleton] at hu
        rcases hu with hu | rfl
        · exact h3 u hu
        · exact hteam
  · cases h

theorem Schema_SetUserActive (db db1 : DB) (id : String) (isActive : Bool) (now : Nat)
    (hs : db.Schema) (h : Repo.SetUserActive db id isActive now = .ok db1) : db1.Schema := by
  unfold Repo.SetUserActive at h
  obtain ⟨h1, h2, h3, h4, h5, h6⟩ := hs
  split at h
  · injection h with h
    subst h
    refine ⟨h1, ?_, ?_, h4, h5, h6⟩
    · have : (db.users.map (fun u => if u.id = id then
          { u with is_active := isActive, updated_at := now } else u)).map
            (fun u => u.id) = db.users.map (fun u => u.id) := by
        apply map_id_of_update
        intro x
        by_cases hx : x.id = id <;> simp [hx]
      simp only [this]
      exact h2
    · intro u hu
      simp only [List.mem_map] at hu
      obtain ⟨x, hx, rfl⟩ := hu
      by_cases hxe : x.id = id
      · simpa [hxe] using h3 x hx
      · simpa [hxe] using h3 x hx
  · cases h

theorem Schema_UpdatePRStatus (db db1 : DB) (prID status : String) (m : Option Nat)
    (hs : db.Schema) (h : Repo.UpdatePRStatus db prID status m = .ok db1) : db1.Schema := by
  unfold Repo.UpdatePRStatus at h
  obtain ⟨h1, h2, h3, h4, h5, h6⟩ := hs
  split at h
  · injection h with h
    subst h
    refine ⟨h1, h2, h3, ?_, h5, ?_⟩
    · have : (db.pull_requests.map (fun p => if p.id = prID then
          { p with status := status, merged_at := m } else p)).map
            (fun p => p.id) = db.pull_requests.map (fun p => p.id) := by
        apply map_id_of_update
        intro x
        by_cases hx : x.id = prID <;> simp [hx]
      simp only [this]
      exact h4
    · intro r hr
      obtain ⟨p, hp, hpid⟩ := h6 r hr
      refine ⟨_, List.mem_map_of_mem _ hp, ?_⟩
      by_cases hx : p.id = prID <;> simp [hx, ← hpid]
  · cases h

theorem Schema_AddReviewer (db db1 : DB) (prID userID : String) (now : Nat) (hs : db.Schema)
    (hpr : ∃ p ∈ db.pull_requests, p.id = prID)
    (h : Repo.AddReviewer db prID userID now = .ok db1) : db1.Schema := by
  unfold Repo.AddReviewer at h
  obtain ⟨h1, h2, h3, h4, h5, h6⟩ := hs
  split at h
  · cases h
  · rename_i hnone
    injection h with h
    subst h
    refine ⟨h1, h2, h3, h4, ?_, ?_⟩
    · simp only [List.map_append, List.map_cons, List.map_nil]
      refine List.Nodup.append h5 (List.nodup_singleton _) ?_
      simp only [List.disjoint_singleton, List.mem_map, not_exists, not_and, Prod.mk.injEq]
      intro x hx hxp hxu
      apply hnone
      simp only [List.any_eq_true, Bool.and_eq_true, beq_iff_eq]
      exact ⟨x, hx, hxp, hxu⟩
    · intro r hr
      simp only [List.mem_append, List.mem_singleton] at hr
      rcases hr with hr | rfl
      · exact h6 r hr
      · exact hpr

theorem AddReviewer_pull_requests (db db1 : DB) (prID userID : String) (now : Nat)
    (h : Repo.AddReviewer db prID userID now = .ok db1) :
    db1.pull_requests = db.pull_requests := by
  unfold Repo.AddReviewer at h
  split at h
  · cases h
  · injection h with h
    subst h
    rfl

theorem Schema_insert_reviewers (prID : String) (now : Nat) : ∀ (ids : List String) (d d1 : DB),
    d.Schema → (∃ p ∈ d.pull_requests, p.id = prID) →
    ids.foldlM (fun d revId => Repo.AddReviewer d prID revId now) d = .ok d1 → d1.Schema
  | [], d, d1, hs, _, h => by
    simp only [List.foldlM_nil, pure, Except.pure] at h
    injection h with h
    exact h ▸ hs
  | i :: t, d, d1, hs, hpr, h => by
    rw [List.foldlM_cons] at h
    cases hstep : Repo.AddReviewer d prID i now with
    | error e =>
      rw [hstep] at h
      cases h
    | ok d2 =>
      rw [hstep] at h
      have hs2 := Schema_AddReviewer d d2 prID i now hs hpr hstep
      have hp2 : ∃ p ∈ d2.pull_requests, p.id = prID := by
        rw [AddReviewer_pull_requests d d2 prID i now hstep]
        exact hpr
      exact Schema_insert_reviewers prID now t d2 d1 hs2 hp2 h

theorem Schema_CreatePullRequest (db db1 : DB) (pr : PullRequest) (revIds : List String)
    (now : Nat) (hs : db.Schema)
    (h : Repo.CreatePullRequest db pr revIds now = .ok db1) : db1.Schema := by
  unfold Repo.CreatePullRequest at h
  split at h
  · cases h
  · rename_i hnone
    obtain ⟨h1, h2, h3, h4, h5, h6⟩ := hs
    have hs1 : DB.Schema
        { db with
          pull_requests := db.pull_requests ++
            [{ id := pr.ID, name := pr.Name, author_id := pr.AuthorID, status := pr.Status,
               created_at := now, merged_at := none }] } := by
      refine ⟨h1, h2, h3, ?_, h5, ?_⟩
      · simp only [List.map_append, List.map_cons, List.map_nil]
        refine List.Nodup.append h4 (List.nodup_singleton _) ?_
        simp only [List.disjoint_singleton, List.mem_map, not_exists, not_and]
        intro x hx hxe
        apply hnone
        simp only [List.any_eq_true, beq_iff_eq]
        exact ⟨x, hx, hxe⟩
      · intro r hr
        obtain ⟨p, hp, hpid⟩ := h6 r hr
        exact ⟨p, List.mem_append_left _ hp, hpid⟩
    exact Schema_insert_reviewers pr.ID now revIds _ db1 hs1
      ⟨_, List.mem_append_right _ (List.mem_singleton_self _), rfl⟩ h

theorem Schema_ReplaceReviewer (db db1 : DB) (prID oldUserID newUserID : String) (now : Nat)
    (hs : db.Schema) (hpr : ∃ p ∈ db.pull_requests, p.id = prID)
    (h : Repo.ReplaceReviewer db prID oldUserID newUserID now = .ok db1) : db1.Schema := by
  unfold Repo.ReplaceReviewer at h
  obtain ⟨h1, h2, h3, h4, h5, h6⟩ := hs
  have hs1 : DB.Schema
      { db with
        pr_reviewers := db.pr_reviewers.filter
          (fun r => !(r.pull_request_id == prID && r.user_id == oldUserID)) } := by
    refine ⟨h1, h2, h3, h4, ?_, ?_⟩
    · exact h5.sublist ((List.filter_sublist _).map _)
    · intro r hr
      exact h6 r (List.mem_of_mem_filter hr)
  exact Schema_AddReviewer _ db1 prID newUserID now hs1 hpr h

theorem Schema_upsertMembers (teamName : String) (now : Nat) :
    ∀ (members : List TeamMember) (db : DB), db.Schema →
      (Service.upsertMembers teamName now members db).1.Schema
  | [], db, hs => by simpa [Service.upsertMembers] using hs
  | m :: rest, db, hs => by
    unfold Service.upsertMembers
    split
    · exact hs
    · rename_i db1 h1
      exact Schema_upsertMembers teamName now rest db1
        (Schema_CreateOrUpdateUser db db1 _ now hs h1)

theorem Schema_Service_CreateTeam (db : DB) (now : Nat) (team : Team) (hs : db.Schema) :
    (Service.CreateTeam db now team).1.Schema := by
  unfold Service.CreateTeam
  split
  · exact hs
  · split
    · exact hs
    · rename_i db1 h1
      exact Schema_upsertMembers _ now _ db1 (Schema_CreateTeam db db1 _ hs h1)

theorem Schema_Service_SetUserActive (db : DB) (now : Nat) (userID : String) (isActive : Bool)
    (hs : db.Schema) : (Service.SetUserActive db now userID isActive).1.Schema := by
  unfold Service.SetUserActive
  split
  · exact hs
  · exact hs
  · split
    · exact hs
    · rename_i db1 h1
      exact Schema_SetUserActive db db1 _ _ now hs h1

theorem Schema_Service_CreatePullRequest (db : DB) (rnd : Nat → Nat) (now : Nat)
    (prID prName authorID : String) (hs : db.Schema) :
    (Service.CreatePullRequest db rnd now prID prName authorID).1.Schema := by
  unfold Service.CreatePullRequest
  split
  · exact hs
  · split
    · exact hs
    · exact hs
    · simp only
      split
      · exact hs
      · rename_i db1 h1
        exact Schema_CreatePullRequest db db1 _ _ now hs h1

theorem Schema_Service_MergePullRequest (db : DB) (now : Nat) (prID : String) (hs : db.Schema) :
    (Service.MergePullRequest db now prID).1.Schema := by
  unfold Service.MergePullRequest
  split
  · exact hs
  · exact hs
  · split
    · exact hs
    · split
      · exact hs
      · rename_i db1 h1
        exact Schema_UpdatePRStatus db db1 _ _ _ hs h1

theorem Schema_Service_ReassignReviewer (db : DB) (rnd : Nat → Nat) (now : Nat)
    (prID oldUserID : String) (hs : db.Schema) :
    (Service.ReassignReviewer db rnd now prID oldUserID).1.Schema := by
  unfold Service.ReassignReviewer
  split
  · exact hs
  · exact hs
  · rename_i pr hpr
    obtain ⟨q, hq, _⟩ := GetPullRequest_ok_inv db prID pr hpr
    have hex : ∃ p ∈ db.pull_requests, p.id = prID :=
      ⟨q, List.mem_of_find?_eq_some hq, by simpa using List.find?_some hq⟩
    split
    · exact hs
    · split
      · exact hs
      · split
        · exact hs
        · exact hs
        · simp only
          split
          · exact hs
          · split
            · exact hs
            · split
              · exact hs
              · rename_i db1 h1
                have hs1 := Schema_ReplaceReviewer db db1 prID oldUserID _ now hs hex h1
                split
                · exact hs1
                · exact hs1

/-- Every call of the service keeps the schema of the store. -/
theorem Schema_run (db : DB) (c : Call) (hs : db.Schema) : (c.run db).Schema := by
  cases c with
  | CreateTeam now team => exact Schema_Service_CreateTeam db now team hs
  | GetTeam teamName =>
    simp only [Call.run, Service.GetTeam]
    split <;> exact hs
  | SetUserActive now userID isActive => exact Schema_Service_SetUserActive db now userID isActive hs
  | CreatePullRequest rnd now prID prName authorID =>
    exact Schema_Service_CreatePullRequest db rnd now prID prName authorID hs
  | MergePullRequest now prID => exact Schema_Service_MergePullRequest db now prID hs
  | ReassignReviewer rnd now prID oldUserID =>
    exact Schema_Service_ReassignReviewer db rnd now prID oldUserID hs
  | GetUserReviews userID =>
    simp only [Call.run, Service.GetUserReviews]
    split <;> exact hs

/-- Every store the service reaches from the empty store satisfies the schema. -/
theorem Reachable.schema {db : DB} (h : Reachable db) : db.Schema := by
  induction h with
  | empty => decide
  | step db c _ ih => exact Schema_run db c ih

/-- The replacement drawn by a successful `ReassignReviewer` is outside the
exclusion list, and the replaced reviewer is inside it. -/
theorem ReassignReviewer_ok_fresh (db : DB) (rnd : Nat → Nat) (now : Nat)
    (prID oldUserID : String) (db1 : DB) (updatedPR : PullRequest) (newID : String)
    (hok : Service.ReassignReviewer db rnd now prID oldUserID = (db1, .ok (updatedPR, newID))) :
    ∃ q : PullRequestRow,
      Repo.GetPullRequest db prID = .ok (q.toPullRequest (Repo.GetPRReviewers db prID)) ∧
      newID ≠ q.author_id ∧ newID ≠ oldUserID ∧ newID ∉ Repo.GetPRReviewers db prID := by
  obtain ⟨q, o, hq, _, hold, _, ⟨u, hu, rfl⟩, _, _⟩ :=
    ReassignReviewer_ok_inv db rnd now prID oldUserID db1 updatedPR newID hok
  obtain ⟨r, _, rfl, _, _, hex⟩ := mem_GetActiveTeamMembers db _ _ u hu
  simp only [List.singleton_append, List.mem_cons, not_or] at hex
  have hget : Repo.GetPullRequest db prID = .ok (q.toPullRequest (Repo.GetPRReviewers db prID)) := by
    simp only [Repo.GetPullRequest, hq]
  refine ⟨q, hget, hex.1, ?_, hex.2⟩
  intro he
  exact hex.2 (by simpa [UserRow.toUser, ← he] using hold)

/-! ## properties of the specification -/

/-- Claim C1: on a store that satisfies its schema, for a PR id not yet in use,
a stored author and every run of the shuffle, `CreatePullRequest` succeeds and
the returned reviewer list does not contain the author, has no duplicate id,
and has length `min 2 n`, where `n` counts the active users of the author's
team other than the author. -/
theorem CreatePullRequest_reviewers (db : DB) (rnd : Nat → Nat) (now : Nat)
    (prID prName authorID : String) (author : UserRow) (hs : db.Schema)
    (hnew : ∀ p ∈ db.pull_requests, p.id ≠ prID)
    (hauthor : author ∈ db.users) (hid : author.id = authorID) :
    ∃ db1 pr, Service.CreatePullRequest db rnd now prID prName authorID = (db1, .ok pr) ∧
      authorID ∉ pr.AssignedReviewers ∧
      pr.AssignedReviewers.Nodup ∧
      pr.AssignedReviewers.length
        = min 2 (db.users.filter
            (fun u => u.team_name == author.team_name && u.is_active && u.id != authorID)).length := by
  subst hid
  have hex : Repo.PRExists db prID = false := by
    unfold Repo.PRExists
    rw [List.any_eq_false]
    intro p hp
    simpa using hnew p hp
  obtain ⟨db1, pr, hrun, _, hperm, _⟩ :=
    CreatePullRequest_run db rnd now prID prName author hs hex hauthor
  refine ⟨db1, pr, hrun, ?_, ?_, ?_⟩
  · exact fun hmem => drawnReviewerIDs_not_author db rnd author (hperm.subset hmem)
  · exact hperm.nodup_iff.mpr (drawnReviewerIDs_nodup db rnd author hs)
  · rw [hperm.length_eq]
    exact drawnReviewerIDs_length db rnd author

theorem CreatePullRequest_reviewers_witness :
    teamStore.Schema ∧
    ∃ db1 pr, Service.CreatePullRequest teamStore (fun i => i) 2 "pr1" "title" "A" = (db1, .ok pr) ∧
      "A" ∉ pr.AssignedReviewers ∧
      pr.AssignedReviewers.Nodup ∧
      pr.AssignedReviewers.length
        = min 2 (teamStore.users.filter
            (fun u => u.team_name == "alpha" && u.is_active && u.id != "A")).length :=
  ⟨by decide,
   CreatePullRequest_reviewers teamStore (fun i => i) 2 "pr1" "title" "A"
     ⟨"A", "Alice", "alpha", true, 1⟩ (by decide) (by decide) (by decide) rfl⟩

/-- Claim C2: whenever `ReassignReviewer` succeeds, the new reviewer id differs
from the author of the PR, from the replaced reviewer, and from every reviewer
assigned to the PR before the call. -/
theorem ReassignReviewer_new_reviewer (db : DB) (rnd : Nat → Nat) (now : Nat)
    (prID oldUserID : String) (db1 : DB) (updatedPR : PullRequest) (newID : String)
    (hok : Service.ReassignReviewer db rnd now prID oldUserID = (db1, .ok (updatedPR, newID))) :
    ∃ pr, Repo.GetPullRequest db prID = .ok pr ∧
      newID ≠ pr.AuthorID ∧ newID ≠ oldUserID ∧ newID ∉ pr.AssignedReviewers := by
  obtain ⟨q, hget, h1, h2, h3⟩ :=
    ReassignReviewer_ok_fresh db rnd now prID oldUserID db1 updatedPR newID hok
  exact ⟨_, hget, h1, h2, h3⟩

theorem ReassignReviewer_new_reviewer_witness :
    Service.ReassignReviewer activeStore (fun i => i) 4 "pr1" "B"
      = ({ activeStore with pr_reviewers := [⟨"pr1", "C", 4⟩] },
         .ok (⟨"pr1", "title", "A", StatusOpen, ["C"], some 2, none⟩, "C")) ∧
    ∃ pr, Repo.GetPullRequest activeStore "pr1" = .ok pr ∧
      "C" ≠ pr.AuthorID ∧ "C" ≠ "B" ∧ "C" ∉ pr.AssignedReviewers :=
  ⟨by decide,
   ReassignReviewer_new_reviewer activeStore (fun i => i) 4 "pr1" "B"
     { activeStore with pr_reviewers := [⟨"pr1", "C", 4⟩] }
     ⟨"pr1", "title", "A", StatusOpen, ["C"], some 2, none⟩ "C" (by decide)⟩

/-- Claim C3: after a successful `ReassignReviewer` on a store that satisfies
its schema, the reviewer list of the PR (the one returned, which is the one
stored) no longer holds the old reviewer, holds the new one, still holds every
other reviewer, holds nobody else, and has the length it had before. -/
theorem ReassignReviewer_replaces (db : DB) (rnd : Nat → Nat) (now : Nat)
    (prID oldUserID : String) (db1 : DB) (updatedPR : PullRequest) (newID : String)
    (hs : db.Schema)
    (hok : Service.ReassignReviewer db rnd now prID oldUserID = (db1, .ok (updatedPR, newID))) :
    updatedPR.AssignedReviewers = Repo.GetPRReviewers db1 prID ∧
    oldUserID ∉ updatedPR.AssignedReviewers ∧
    newID ∈ updatedPR.AssignedReviewers ∧
    (∀ r ∈ Repo.GetPRReviewers db prID, r ≠ oldUserID → r ∈ updatedPR.AssignedReviewers) ∧
    (∀ r ∈ updatedPR.AssignedReviewers, r = newID ∨ r ∈ Repo.GetPRReviewers db prID) ∧
    updatedPR.AssignedReviewers.length = (Repo.GetPRReviewers db prID).length := by
  obtain ⟨_, _, _, hne, _⟩ :=
    ReassignReviewer_ok_fresh db rnd now prID oldUserID db1 updatedPR newID hok
  obtain ⟨q, o, _, _, hold, _, _, hrep, hupd⟩ :=
    ReassignReviewer_ok_inv db rnd now prID oldUserID db1 updatedPR newID hok
  obtain ⟨q1, _, rfl⟩ := GetPullRequest_ok_inv db1 prID updatedPR hupd
  have hbefore := GetPRReviewers_perm db prID
  have hafter := GetPRReviewers_after_replace db prID oldUserID newID now db1 hrep
  have hnodup := reviewer_ids_nodup prID db.pr_reviewers hs.2.2.2.2.1
  have h1 : oldUserID ∉ Repo.GetPRReviewers db1 prID := by
    intro hmem
    have := hafter.subset hmem
    simp only [List.mem_append, List.mem_filter, bne_iff_ne, ne_eq, not_true_eq_false,
      and_false, List.mem_singleton, false_or] at this
    exact hne this.symm
  have h2 : newID ∈ Repo.GetPRReviewers db1 prID := hafter.symm.subset (by simp)
  have h3 : ∀ r ∈ Repo.GetPRReviewers db prID, r ≠ oldUserID → r ∈ Repo.GetPRReviewers db1 prID := by
    intro r hr hro
    refine hafter.symm.subset ?_
    simp only [List.mem_append, List.mem_filter, bne_iff_ne, ne_eq, List.mem_singleton]
    exact Or.inl ⟨hbefore.subset hr, hro⟩
  have h4 : ∀ r ∈ Repo.GetPRReviewers db1 prID, r = newID ∨ r ∈ Repo.GetPRReviewers db prID := by
    intro r hr
    have := hafter.subset hr
    simp only [List.mem_append, List.mem_filter, bne_iff_ne, ne_eq, List.mem_singleton] at this
    rcases this with ⟨hin, _⟩ | hnew
    · exact Or.inr (hbefore.symm.subset hin)
    · exact Or.inl hnew
  have h5 : (Repo.GetPRReviewers db1 prID).length = (Repo.GetPRReviewers db prID).length := by
    rw [hafter.length_eq, hbefore.length_eq, List.length_append, List.length_singleton]
    have hmem := hbefore.subset hold
    have he : ((db.pr_reviewers.filter (fun r => r.pull_request_id == prID)).map
        (fun r => r.user_id)).filter (fun id => id != oldUserID)
        = ((db.pr_reviewers.filter (fun r => r.pull_request_id == prID)).map
        (fun r => r.user_id)).erase oldUserID := (hnodup.erase_eq_filter oldUserID).symm
    rw [he, List.length_erase_of_mem hmem]
    have := List.length_pos_of_mem hmem
    omega
  exact ⟨rfl, h1, h2, h3, h4, h5⟩

theorem ReassignReviewer_replaces_witness :
    activeStore.Schema ∧
    Repo.GetPRReviewers activeStore "pr1" = ["B"] ∧
    Service.ReassignReviewer activeStore (fun i => i) 4 "pr1" "B"
      = ({ activeStore with pr_reviewers := [⟨"pr1", "C", 4⟩] },
         .ok (⟨"pr1", "title", "A", StatusOpen, ["C"], some 2, none⟩, "C")) ∧
    "B" ∉ ["C"] ∧ "C" ∈ ["C"] ∧ ["C"].length = (Repo.GetPRReviewers activeStore "pr1").length :=
  have h := ReassignReviewer_replaces activeStore (fun i => i) 4 "pr1" "B"
    { activeStore with pr_reviewers := [⟨"pr1", "C", 4⟩] }
    ⟨"pr1", "title", "A", StatusOpen, ["C"], some 2, none⟩ "C" (by decide) (by decide)
  ⟨by decide, by decide, by decide, h.2.1, h.2.2.1, h.2.2.2.2.2⟩

/-- Claim C4: when the PR is stored with status MERGED, `ReassignReviewer` fails
with PRMerged for every old reviewer id, assigned or not, stored as a user or
not, and writes nothing. -/
theorem ReassignReviewer_merged (db : DB) (rnd : Nat → Nat) (now : Nat) (prID oldUserID : String)
    (p : PullRequestRow) (hs : db.Schema) (hp : p ∈ db.pull_requests) (hid : p.id = prID)
    (hmerged : p.status = StatusMerged) :
    Service.ReassignReviewer db rnd now prID oldUserID = (db, .error .ErrPRMerged) := by
  subst hid
  simp [Service.ReassignReviewer, GetPullRequest_of_mem db p hs hp, hmerged,
    PullRequestRow.toPullRequest]

theorem ReassignReviewer_merged_witness :
    mergedStore.Schema ∧
    Service.ReassignReviewer mergedStore (fun i => i) 4 "pr1" "nobody"
      = (mergedStore, .error .ErrPRMerged) :=
  ⟨by decide,
   ReassignReviewer_merged mergedStore (fun i => i) 4 "pr1" "nobody"
     ⟨"pr1", "title", "A", "MERGED", 2, some 3⟩ (by decide) (by decide) rfl rfl⟩

/-- Claim C5: for a stored PR, two `MergePullRequest` calls in a row both
succeed; the second returns status MERGED, the status and the merge timestamp
the first call returned, whatever the clock reads, and leaves the store as the
first call left it. -/
theorem MergePullRequest_twice (db : DB) (now1 now2 : Nat) (prID : String) (p : PullRequestRow)
    (hp : p ∈ db.pull_requests) (hid : p.id = prID) :
    ∃ db1 pr1 pr2, Service.MergePullRequest db now1 prID = (db1, .ok pr1) ∧
      Service.MergePullRequest db1 now2 prID = (db1, .ok pr2) ∧
      pr2.Status = StatusMerged ∧ pr2.Status = pr1.Status ∧ pr2.MergedAt = pr1.MergedAt := by
  obtain ⟨q, hq, _⟩ := find_id_of_mem (fun z : PullRequestRow => z.id) prID _ p hp hid
  by_cases hm : q.status = StatusMerged
  · exact ⟨_, _, _, MergePullRequest_of_merged db now1 prID q hq hm,
      MergePullRequest_of_merged db now2 prID q hq hm, hm, rfl, rfl⟩
  · have hq1 := find_after_status_update prID StatusMerged (some now1) _ q hq
    exact ⟨_, _, _, MergePullRequest_of_unmerged db now1 prID q hq hm,
      MergePullRequest_of_merged _ now2 prID _ hq1 rfl, rfl, rfl, rfl⟩

theorem MergePullRequest_twice_witness :
    Service.MergePullRequest openStore 3 "pr1"
      = (mergedStore, .ok ⟨"pr1", "title", "A", StatusMerged, ["B"], some 2, some 3⟩) ∧
    ∃ db1 pr1 pr2, Service.MergePullRequest openStore 3 "pr1" = (db1, .ok pr1) ∧
      Service.MergePullRequest db1 9 "pr1" = (db1, .ok pr2) ∧
      pr2.Status = StatusMerged ∧ pr2.Status = pr1.Status ∧ pr2.MergedAt = pr1.MergedAt :=
  ⟨by decide,
   MergePullRequest_twice openStore 3 9 "pr1" ⟨"pr1", "title", "A", "OPEN", 2, none⟩
     (by decide) rfl⟩

/-- The claim C6 fails on the store reached by creating team alpha with A, B
and C, opening `pr1` by A (reviewer B), and then creating team beta with B and
D: the team of the author A has no active member besides A, yet reassigning B
succeeds and assigns D, because the pool is drawn from the team of B. -/
theorem ReassignReviewer_author_team_counterexample :
    (∃ db1 db2 pr,
      Service.CreateTeam DB.empty 1
          { TeamName := "alpha",
            Members := [⟨"A", "Alice", true⟩, ⟨"B", "Bob", true⟩, ⟨"C", "Carol", false⟩] }
        = (db1, .ok ()) ∧
      Service.CreatePullRequest db1 (fun _ => 0) 2 "pr1" "title" "A" = (db2, .ok pr) ∧
      Service.CreateTeam db2 3
          { TeamName := "beta", Members := [⟨"B", "Bob", true⟩, ⟨"D", "Dan", true⟩] }
        = (movedStore, .ok ())) ∧
    movedStore.Schema ∧
    Repo.GetPullRequest movedStore "pr1"
      = .ok ⟨"pr1", "title", "A", StatusOpen, ["B"], some 2, none⟩ ∧
    (∀ a ∈ movedStore.users, a.id = "A" →
      ∀ u ∈ movedStore.users, u.team_name = a.team_name → u.is_active = true →
        u.id = "A" ∨ u.id ∈ ["B"]) ∧
    Service.ReassignReviewer movedStore (fun _ => 0) 4 "pr1" "B"
      = ({ movedStore with pr_reviewers := [⟨"pr1", "D", 4⟩] },
         .ok (⟨"pr1", "title", "A", StatusOpen, ["D"], some 2, none⟩, "D")) ∧
    Service.ReassignReviewer movedStore (fun _ => 0) 4 "pr1" "B"
      ≠ (movedStore, .error .ErrNoCandidate) :=
  ⟨⟨_, _, _, rfl, rfl, rfl⟩, by decide, by decide, by decide, by decide, by decide⟩

/-- Claim C6, amended: for an open PR and a reviewer assigned to it who is a
stored user, if the team of that reviewer has no active member other than the
author of the PR and its assigned reviewers, `ReassignReviewer` fails with
NoCandidate and writes nothing. -/
theorem ReassignReviewer_no_candidate (db : DB) (rnd : Nat → Nat) (now : Nat)
    (prID oldUserID : String) (q : PullRequestRow) (o : UserRow) (hs : db.Schema)
    (hq : q ∈ db.pull_requests) (hid : q.id = prID) (hopen : q.status = StatusOpen)
    (hassigned : oldUserID ∈ Repo.GetPRReviewers db prID)
    (ho : o ∈ db.users) (hoid : o.id = oldUserID)
    (hnone : ∀ u ∈ db.users, u.team_name = o.team_name → u.is_active = true →
      u.id = q.author_id ∨ u.id ∈ Repo.GetPRReviewers db prID) :
    Service.ReassignReviewer db rnd now prID oldUserID = (db, .error .ErrNoCandidate) := by
  subst hid
  subst hoid
  have hnm : q.status ≠ StatusMerged := by
    rw [hopen]
    decide
  have hcand : Repo.GetActiveTeamMembers db o.team_name
      ([q.author_id] ++ Repo.GetPRReviewers db q.id) = [] := by
    apply GetActiveTeamMembers_nil
    intro u hu ht ha
    simpa using hnone u hu ht ha
  have hany : (Repo.GetPRReviewers db q.id).any (fun reviewerID => reviewerID == o.id) = true := by
    simp only [List.any_eq_true, beq_iff_eq]
    exact ⟨o.id, hassigned, rfl⟩
  simp only [Service.ReassignReviewer, GetPullRequest_of_mem db q hs hq,
    PullRequestRow.toPullRequest, hnm, if_false, hany, not_true_eq_false,
    GetUser_of_mem db o hs ho, UserRow.toUser, hcand, List.length_nil, if_true]

theorem ReassignReviewer_no_candidate_witness :
    openStore.Schema ∧ "B" ∈ Repo.GetPRReviewers openStore "pr1" ∧
    Service.ReassignReviewer openStore (fun i => i) 3 "pr1" "B"
      = (openStore, .error .ErrNoCandidate) :=
  ⟨by decide, by decide,
   ReassignReviewer_no_candidate openStore (fun i => i) 3 "pr1" "B"
     ⟨"pr1", "title", "A", "OPEN", 2, none⟩ ⟨"B", "Bob", "alpha", true, 1⟩
     (by decide) (by decide) rfl rfl (by decide) (by decide) rfl (by decide)⟩

/-- Claim C7: when a PR with the id is already stored, `CreatePullRequest` fails
with PRAlreadyExists for every name and every author id, stored or not, and
the store is left as it was. -/
theorem CreatePullRequest_existing_id (db : DB) (rnd : Nat → Nat) (now : Nat)
    (prID prName authorID : String) (p : PullRequestRow)
    (hp : p ∈ db.pull_requests) (hid : p.id = prID) :
    Service.CreatePullRequest db rnd now prID prName authorID = (db, .error .ErrPRExists) := by
  have h : Repo.PRExists db prID = true := any_id_of_mem _ _ _ p hp hid
  simp [Service.CreatePullRequest, h]

theorem CreatePullRequest_existing_id_witness :
    Service.CreatePullRequest openStore (fun i => i) 7 "pr1" "other title" "nobody"
      = (openStore, .error .ErrPRExists) :=
  CreatePullRequest_existing_id openStore (fun i => i) 7 "pr1" "other title" "nobody"
    ⟨"pr1", "title", "A", "OPEN", 2, none⟩ (by decide) rfl

/-- Claim C8: when a team of that name is already stored, `CreateTeam` fails
with TeamAlreadyExists for every member list and writes nothing: the store,
with every team and every user row, is left as it was. -/
theorem CreateTeam_existing_name (db : DB) (now : Nat) (teamName : String)
    (members : List TeamMember) (hexists : teamName ∈ db.teams) :
    Service.CreateTeam db now { TeamName := teamName, Members := members }
      = (db, .error .ErrTeamExists) := by
  simp [Service.CreateTeam, Repo.TeamExists, hexists]

theorem CreateTeam_existing_name_witness :
    Service.CreateTeam teamStore 5
        { TeamName := "alpha", Members := [⟨"A", "Renamed", false⟩, ⟨"Z", "Zed", true⟩] }
      = (teamStore, .error .ErrTeamExists) :=
  CreateTeam_existing_name teamStore 5 "alpha" [⟨"A", "Renamed", false⟩, ⟨"Z", "Zed", true⟩]
    (by decide)

/-- Claim C9: from the empty store, for every run of the shuffle, every clock
and all usernames: creating team alpha with A active, B active and C inactive
succeeds; `CreatePullRequest("pr1", "title", A)` succeeds with reviewer list
`[B]`; `ReassignReviewer("pr1", B)` fails with NoCandidate and writes nothing;
after `SetUserActive(C, true)` the same call succeeds, returns C, and the
reviewer list of the PR, returned and stored, is `[C]`. -/
theorem scenario_alpha (rnd1 rnd2 rnd3 : Nat → Nat) (t0 t1 t2 t3 t4 : Nat)
    (nameA nameB nameC : String) :
    ∃ db1 db2 pr db3 u db4 updatedPR,
      Service.CreateTeam DB.empty t0
          { TeamName := "alpha",
            Members := [⟨"A", nameA, true⟩, ⟨"B", nameB, true⟩, ⟨"C", nameC, false⟩] }
        = (db1, .ok ()) ∧
      Service.CreatePullRequest db1 rnd1 t1 "pr1" "title" "A" = (db2, .ok pr) ∧
      pr.AssignedReviewers = ["B"] ∧
      Service.ReassignReviewer db2 rnd2 t2 "pr1" "B" = (db2, .error .ErrNoCandidate) ∧
      Service.SetUserActive db2 t3 "C" true = (db3, .ok u) ∧
      Service.ReassignReviewer db3 rnd3 t4 "pr1" "B" = (db4, .ok (updatedPR, "C")) ∧
      updatedPR.AssignedReviewers = ["C"] ∧
      Repo.GetPRReviewers db4 "pr1" = ["C"] :=
  ⟨_, _, _, _, _, _, _, rfl, rfl, rfl, rfl, rfl, rfl, rfl, rfl⟩

/-- Claim C10: for pairwise distinct candidates, every count and every run of
the shuffle, `selectRandomReviewers` returns `min count |candidates|` users,
pairwise distinct and all taken from the candidates; the result is empty when
there is no candidate or the count is 0; the function is total, so no error is
possible; and the slice of the caller holds the candidates it held. -/
theorem selectRandomReviewers_spec (rnd : Nat → Nat) (candidates : List User) (count : Nat)
    (hdistinct : candidates.Nodup) :
    (Service.selectRandomReviewers rnd candidates count).length = min count candidates.length ∧
    (Service.selectRandomReviewers rnd candidates count).Nodup ∧
    (∀ u ∈ Service.selectRandomReviewers rnd candidates count, u ∈ candidates) ∧
    (candidates = [] → Service.selectRandomReviewers rnd candidates count = []) ∧
    (count = 0 → Service.selectRandomReviewers rnd candidates count = []) ∧
    (Service.selectRandomReviewersRun rnd candidates count).2.candidates = candidates := by
  obtain ⟨p, hp, h⟩ := selectRun_shape rnd candidates count
  have hsel : Service.selectRandomReviewers rnd candidates count
      = p.take (min count candidates.length) := by
    simp [Service.selectRandomReviewers, h]
  rw [hsel, h]
  refine ⟨?_, ?_, ?_, ?_, ?_, rfl⟩
  · rw [List.length_take, hp.length_eq]
    omega
  · exact (hp.nodup_iff.mpr hdistinct).sublist (List.take_sublist _ _)
  · intro u hu
    exact hp.subset (List.mem_of_mem_take hu)
  · intro he
    subst he
    simp
  · intro h0
    subst h0
    simp

theorem selectRandomReviewers_spec_witness :
    [(⟨"u1", "n1", "t", true⟩ : User), ⟨"u2", "n2", "t", true⟩, ⟨"u3", "n3", "t", true⟩].Nodup ∧
    Service.selectRandomReviewers (fun _ => 0)
      [⟨"u1", "n1", "t", true⟩, ⟨"u2", "n2", "t", true⟩, ⟨"u3", "n3", "t", true⟩] 2
      = [⟨"u2", "n2", "t", true⟩, ⟨"u3", "n3", "t", true⟩] ∧
    (Service.selectRandomReviewers (fun _ => 0)
      [⟨"u1", "n1", "t", true⟩, ⟨"u2", "n2", "t", true⟩, ⟨"u3", "n3", "t", true⟩] 2).length
      = min 2 3 :=
  ⟨by decide, by decide,
   (selectRandomReviewers_spec (fun _ => 0)
      [⟨"u1", "n1", "t", true⟩, ⟨"u2", "n2", "t", true⟩, ⟨"u3", "n3", "t", true⟩] 2 (by decide)).1⟩

/-! ## what a call does to the pull request tables -/

theorem CreateOrUpdateUser_tables (db db1 : DB) (user : User) (now : Nat)
    (h : Repo.CreateOrUpdateUser db user now = .ok db1) :
    db1.pull_requests = db.pull_requests ∧ db1.pr_reviewers = db.pr_reviewers := by
  unfold Repo.CreateOrUpdateUser at h
  simp only at h
  split at h
  · split at h
    · injection h with h
      subst h
      exact ⟨rfl, rfl⟩
    · injection h with h
      subst h
      exact ⟨rfl, rfl⟩
  · cases h

theorem upsertMembers_tables (teamName : String) (now : Nat) :
    ∀ (members : List TeamMember) (db : DB),
      (Service.upsertMembers teamName now members db).1.pull_requests = db.pull_requests ∧
      (Service.upsertMembers teamName now members db).1.pr_reviewers = db.pr_reviewers
  | [], db => by simp [Service.upsertMembers]
  | m :: rest, db => by
    unfold Service.upsertMembers
    split
    · exact ⟨rfl, rfl⟩
    · rename_i db1 h1
      have ih := upsertMembers_tables teamName now rest db1
      have h := CreateOrUpdateUser_tables db db1 _ now h1
      exact ⟨ih.1.trans h.1, ih.2.trans h.2⟩

theorem CreateTeam_tables (db : DB) (now : Nat) (team : Team) :
    (Service.CreateTeam db now team).1.pull_requests = db.pull_requests ∧
    (Service.CreateTeam db now team).1.pr_reviewers = db.pr_reviewers := by
  unfold Service.CreateTeam
  split
  · exact ⟨rfl, rfl⟩
  · split
    · exact ⟨rfl, rfl⟩
    · rename_i db1 h1
      have ih := upsertMembers_tables team.TeamName now team.Members db1
      unfold Repo.CreateTeam at h1
      split at h1
      · cases h1
      · injection h1 with h1
        subst h1
        exact ih

theorem SetUserActive_tables (db : DB) (now : Nat) (userID : String) (isActive : Bool) :
    (Service.SetUserActive db now userID isActive).1.pull_requests = db.pull_requests ∧
    (Service.SetUserActive db now userID isActive).1.pr_reviewers = db.pr_reviewers := by
  unfold Service.SetUserActive
  split
  · exact ⟨rfl, rfl⟩
  · exact ⟨rfl, rfl⟩
  · split
    · exact ⟨rfl, rfl⟩
    · rename_i db1 h1
      unfold Repo.SetUserActive at h1
      split at h1
      · injection h1 with h1
        subst h1
        exact ⟨rfl, rfl⟩
      · cases h1

theorem GetUser_cases (db : DB) (id : String) :
    (∃ o, db.users.find? (fun z => z.id == id) = some o ∧ Repo.GetUser db id = .ok o.toUser) ∨
    Repo.GetUser db id = .error .sqlErrNoRows := by
  unfold Repo.GetUser
  cases h : db.users.find? (fun z => z.id == id) with
  | none => exact Or.inr rfl
  | some o => exact Or.inl ⟨o, rfl, rfl⟩

/-- The store after `CreatePullRequest`: untouched, or extended by the pull
request row and the rows of the drawn reviewers. -/
theorem CreatePullRequest_store (db : DB) (rnd : Nat → Nat) (now : Nat)
    (prID prName authorID : String) (hs : db.Schema) :
    (Service.CreatePullRequest db rnd now prID prName authorID).1 = db ∨
    ∃ author ∈ db.users, author.id = authorID ∧ Repo.PRExists db prID = false ∧
      (Service.CreatePullRequest db rnd now prID prName authorID).1.pull_requests
        = db.pull_requests ++
          [{ id := prID, name := prName, author_id := author.id, status := StatusOpen,
             created_at := now, merged_at := none }] ∧
      (Service.CreatePullRequest db rnd now prID prName authorID).1.pr_reviewers
        = db.pr_reviewers ++
          (drawnReviewerIDs db rnd author).map
            (fun i => { pull_request_id := prID, user_id := i, assigned_at := now }) := by
  cases hex : Repo.PRExists db prID with
  | true => exact Or.inl (by simp [Service.CreatePullRequest, hex])
  | false =>
    rcases GetUser_cases db authorID with ⟨o, ho, _⟩ | hnone
    · have hmem : o ∈ db.users := List.mem_of_find?_eq_some ho
      have hid : o.id = authorID := by simpa using List.find?_some ho
      subst hid
      obtain ⟨db1, pr, hrun, _, _, _, _, _, _, _, hprs, hrows⟩ :=
        CreatePullRequest_run db rnd now prID prName o hs hex hmem
      refine Or.inr ⟨o, hmem, rfl, rfl, ?_, ?_⟩
      · rw [hrun]
        exact hprs
      · rw [hrun]
        exact hrows
    · exact Or.inl (by simp [Service.CreatePullRequest, hex, hnone])

/-- The store after `MergePullRequest`: untouched, or with the status and the
merge time of an unmerged pull request set. -/
theorem MergePullRequest_store (db : DB) (now : Nat) (prID : String) :
    (Service.MergePullRequest db now prID).1 = db ∨
    ∃ q, db.pull_requests.find? (fun z => z.id == prID) = some q ∧ q.status ≠ StatusMerged ∧
      (Service.MergePullRequest db now prID).1
        = { db with
            pull_requests := db.pull_requests.map (fun z =>
              if z.id = prID then { z with status := StatusMerged, merged_at := some now } else z) } := by
  cases hq : db.pull_requests.find? (fun z => z.id == prID) with
  | none => exact Or.inl (by simp [Service.MergePullRequest, Repo.GetPullRequest, hq])
  | some q =>
    by_cases hm : q.status = StatusMerged
    · exact Or.inl (by rw [MergePullRequest_of_merged db now prID q hq hm])
    · exact Or.inr ⟨q, rfl, hm, by rw [MergePullRequest_of_unmerged db now prID q hq hm]⟩

/-- The store after `ReassignReviewer`: untouched, or the one committed by
`ReplaceReviewer` for an unmerged pull request and a fresh replacement. -/
theorem ReassignReviewer_store (db : DB) (rnd : Nat → Nat) (now : Nat) (prID oldUserID : String) :
    (Service.ReassignReviewer db rnd now prID oldUserID).1 = db ∨
    ∃ q newID, db.pull_requests.find? (fun z => z.id == prID) = some q ∧
      q.status ≠ StatusMerged ∧
      oldUserID ∈ Repo.GetPRReviewers db prID ∧
      newID ≠ q.author_id ∧ newID ≠ oldUserID ∧ newID ∉ Repo.GetPRReviewers db prID ∧
      Repo.ReplaceReviewer db prID oldUserID newID now
        = .ok (Service.ReassignReviewer db rnd now prID oldUserID).1 := by
  generalize hR : Service.ReassignReviewer db rnd now prID oldUserID = R
  unfold Service.ReassignReviewer at hR
  split at hR
  · exact Or.inl (by rw [← hR])
  · exact Or.inl (by rw [← hR])
  · rename_i pr hpr
    obtain ⟨q, hq, rfl⟩ := GetPullRequest_ok_inv db prID pr hpr
    split at hR
    · exact Or.inl (by rw [← hR])
    · rename_i hm
      split at hR
      · exact Or.inl (by rw [← hR])
      · rename_i hassigned
        have hold : oldUserID ∈ Repo.GetPRReviewers db prID := by
          simpa [PullRequestRow.toPullRequest] using hassigned
        split at hR
        · exact Or.inl (by rw [← hR])
        · exact Or.inl (by rw [← hR])
        · rename_i oldUser _
          simp only at hR
          split at hR
          · exact Or.inl (by rw [← hR])
          · split at hR
            · exact Or.inl (by rw [← hR])
            · rename_i newReviewer rest hsel
              have hcand := select_one_mem rnd _ _ _ hsel
              obtain ⟨r, _, rfl, _, _, hexcl⟩ := mem_GetActiveTeamMembers db _ _ _ hcand
              simp only [PullRequestRow.toPullRequest, List.singleton_append, List.mem_cons,
                not_or] at hexcl
              have hne : r.toUser.ID ≠ oldUserID := by
                intro he
                exact hexcl.2 (by simpa [UserRow.toUser, ← he] using hold)
              split at hR
              · exact Or.inl (by rw [← hR])
              · rename_i db1 hrep
                have hstore : R.1 = db1 := by
                  split at hR <;> rw [← hR]
                exact Or.inr ⟨q, r.toUser.ID, hq, hm, hold, hexcl.1, hne, hexcl.2,
                  by rw [hstore]; exact hrep⟩

theorem GetTeam_store (db : DB) (teamName : String) : (Service.GetTeam db teamName).1 = db := by
  unfold Service.GetTeam
  split <;> rfl

theorem GetUserReviews_store (db : DB) (userID : String) :
    (Service.GetUserReviews db userID).1 = db := by
  unfold Service.GetUserReviews
  split <;> rfl

/-- The rows of another pull request are untouched by a committed replacement. -/
theorem rows_of_other_pr_after_replace (db db1 : DB) (prID oldUserID newUserID : String)
    (now : Nat) (k : String) (hk : k ≠ prID)
    (h : Repo.ReplaceReviewer db prID oldUserID newUserID now = .ok db1) :
    db1.pr_reviewers.filter (fun r => r.pull_request_id == k)
      = db.pr_reviewers.filter (fun r => r.pull_request_id == k) := by
  obtain ⟨_, _, _, hrows⟩ := ReplaceReviewer_ok_inv db prID oldUserID newUserID now db1 h
  have hkb : (prID == k) = false := by
    simp only [beq_eq_false_iff_ne, ne_eq]
    exact fun he => hk he.symm
  rw [hrows, List.filter_append, List.filter_filter]
  simp only [List.filter_cons, hkb, List.filter_nil, List.append_nil, Bool.false_eq_true,
    if_false]
  apply List.filter_congr
  intro r _
  by_cases hr : r.pull_request_id = k
  · have : (r.pull_request_id == prID) = false := by
      simp only [beq_eq_false_iff_ne, ne_eq, hr]
      exact hk
    simp [hr, hk]
  · simp [hr]

/-- The rows of a stored pull request are untouched by the creation of another. -/
theorem rows_of_other_pr_after_create (rows : List ReviewerRow) (ids : List String)
    (prID k : String) (now : Nat) (hk : k ≠ prID) :
    (rows ++ ids.map (fun i => ({ pull_request_id := prID, user_id := i, assigned_at := now } :
        ReviewerRow))).filter (fun r => r.pull_request_id == k)
      = rows.filter (fun r => r.pull_request_id == k) := by
  rw [List.filter_append]
  have : (ids.map (fun i => ({ pull_request_id := prID, user_id := i, assigned_at := now } :
      ReviewerRow))).filter (fun r => r.pull_request_id == k) = [] := by
    rw [List.filter_eq_nil_iff]
    intro r hr
    simp only [List.mem_map] at hr
    obtain ⟨i, _, rfl⟩ := hr
    simp only [beq_iff_eq]
    exact fun he => hk he.symm
  rw [this, List.append_nil]

theorem id_ne_of_unused (db : DB) (prID : String) (p : PullRequestRow)
    (hp : p ∈ db.pull_requests) (hex : Repo.PRExists db prID = false) : p.id ≠ prID := by
  intro he
  have : Repo.PRExists db prID = true := any_id_of_mem _ _ _ p hp he
  rw [hex] at this
  cases this

theorem id_ne_of_found_unmerged (db : DB) (hs : db.Schema) (prID : String)
    (p q : PullRequestRow) (hp : p ∈ db.pull_requests) (hm : p.status = StatusMerged)
    (hq : db.pull_requests.find? (fun z => z.id == prID) = some q)
    (hqm : q.status ≠ StatusMerged) : p.id ≠ prID := by
  intro he
  have hfind := find_of_keyed (fun z : PullRequestRow => z.id) db.pull_requests p hs.2.2.2.1 hp
  simp only [he] at hfind
  rw [hq] at hfind
  injection hfind with hfind
  exact hqm (hfind ▸ hm)

/-- One call keeps the row and the assignment rows of a merged pull request. -/
theorem merged_kept_step (db : DB) (hs : db.Schema) (c : Call) (p : PullRequestRow)
    (hp : p ∈ db.pull_requests) (hm : p.status = StatusMerged) :
    p ∈ (c.run db).pull_requests ∧
    (c.run db).pr_reviewers.filter (fun r => r.pull_request_id == p.id)
      = db.pr_reviewers.filter (fun r => r.pull_request_id == p.id) := by
  cases c with
  | CreateTeam now team =>
    obtain ⟨h1, h2⟩ := CreateTeam_tables db now team
    simp only [Call.run]
    rw [h1, h2]
    exact ⟨hp, rfl⟩
  | GetTeam teamName =>
    simp only [Call.run]
    rw [GetTeam_store]
    exact ⟨hp, rfl⟩
  | SetUserActive now userID isActive =>
    obtain ⟨h1, h2⟩ := SetUserActive_tables db now userID isActive
    simp only [Call.run]
    rw [h1, h2]
    exact ⟨hp, rfl⟩
  | CreatePullRequest rnd now prID prName authorID =>
    simp only [Call.run]
    rcases CreatePullRequest_store db rnd now prID prName authorID hs with h | ⟨a, _, _, hex, h1, h2⟩
    · rw [h]
      exact ⟨hp, rfl⟩
    · rw [h1, h2]
      exact ⟨List.mem_append_left _ hp,
        rows_of_other_pr_after_create _ _ prID p.id now (id_ne_of_unused db prID p hp hex)⟩
  | MergePullRequest now prID =>
    simp only [Call.run]
    rcases MergePullRequest_store db now prID with h | ⟨q, hq, hqm, h⟩
    · rw [h]
      exact ⟨hp, rfl⟩
    · have hne := id_ne_of_found_unmerged db hs prID p q hp hm hq hqm
      rw [h]
      refine ⟨?_, rfl⟩
      simp only [List.mem_map]
      exact ⟨p, hp, by simp [hne]⟩
  | ReassignReviewer rnd now prID oldUserID =>
    simp only [Call.run]
    rcases ReassignReviewer_store db rnd now prID oldUserID with h | ⟨q, n, hq, hqm, _, _, _, _, h⟩
    · rw [h]
      exact ⟨hp, rfl⟩
    · have hne := id_ne_of_found_unmerged db hs prID p q hp hm hq hqm
      obtain ⟨_, _, hprs, _⟩ := ReplaceReviewer_ok_inv db prID oldUserID n now _ h
      exact ⟨hprs ▸ hp, rows_of_other_pr_after_replace db _ prID oldUserID n now p.id hne h⟩
  | GetUserReviews userID =>
    simp only [Call.run]
    rw [GetUserReviews_store]
    exact ⟨hp, rfl⟩

/-- Any sequence of calls keeps the row and the assignment rows of a merged
pull request, and the schema with them. -/
theorem merged_kept (cs : List Call) : ∀ (db : DB), db.Schema → ∀ (p : PullRequestRow),
    p ∈ db.pull_requests → p.status = StatusMerged →
    (cs.foldl Call.run db).Schema ∧
    p ∈ (cs.foldl Call.run db).pull_requests ∧
    (cs.foldl Call.run db).pr_reviewers.filter (fun r => r.pull_request_id == p.id)
      = db.pr_reviewers.filter (fun r => r.pull_request_id == p.id) := by
  induction cs with
  | nil =>
    intro db hs p hp _
    exact ⟨hs, hp, rfl⟩
  | cons c rest ih =>
    intro db hs p hp hm
    obtain ⟨h1, h2⟩ := merged_kept_step db hs c p hp hm
    obtain ⟨i1, i2, i3⟩ := ih (c.run db) (Schema_run db c hs) p h1 hm
    exact ⟨i1, i2, i3.trans h2⟩

/-! ## the reviewer lists of reachable stores -/

theorem GetPRReviewers_perm_assigned (db : DB) (prID : String) :
    (Repo.GetPRReviewers db prID).Perm (assignedIDs db prID) :=
  GetPRReviewers_perm db prID

theorem assignedIDs_congr (db db1 : DB) (k : String)
    (h : db1.pr_reviewers.filter (fun r => r.pull_request_id == k)
      = db.pr_reviewers.filter (fun r => r.pull_request_id == k)) :
    assignedIDs db1 k = assignedIDs db k := by
  simp only [assignedIDs, h]

theorem assignedIDs_after_replace (db db1 : DB) (prID oldUserID newUserID : String) (now : Nat)
    (h : Repo.ReplaceReviewer db prID oldUserID newUserID now = .ok db1) :
    assignedIDs db1 prID = (assignedIDs db prID).filter (fun id => id != oldUserID) ++ [newUserID] := by
  obtain ⟨_, _, _, hrows⟩ := ReplaceReviewer_ok_inv db prID oldUserID newUserID now db1 h
  simp only [assignedIDs]
  rw [hrows, List.filter_append, List.map_append, reviewer_ids_after_delete]
  simp

theorem assignedIDs_after_create (db : DB) (hs : db.Schema) (prID : String) (ids : List String)
    (now : Nat) (hex : Repo.PRExists db prID = false) :
    ((db.pr_reviewers ++ ids.map (fun i => (⟨prID, i, now⟩ : ReviewerRow))).filter
        (fun r => r.pull_request_id == prID)).map (fun r => r.user_id) = ids := by
  rw [List.filter_append, no_rows_of_unused_id db prID hs hex, List.nil_append,
    List.filter_eq_self.mpr]
  · simp [List.map_map, Function.comp_def]
  · intro r hr
    simp only [List.mem_map] at hr
    obtain ⟨i, _, rfl⟩ := hr
    simp

theorem length_after_replace (l : List String) (oldUserID newUserID : String) (hn : l.Nodup)
    (hold : oldUserID ∈ l) :
    (l.filter (fun id => id != oldUserID) ++ [newUserID]).length = l.length := by
  rw [List.length_append, List.length_singleton, ← hn.erase_eq_filter oldUserID,
    List.length_erase_of_mem hold]
  have := List.length_pos_of_mem hold
  omega

/-- One call keeps the bound on the reviewer lists and keeps authors out of them. -/
theorem assigned_step (db : DB) (hs : db.Schema)
    (hinv : ∀ p ∈ db.pull_requests,
      (assignedIDs db p.id).length ≤ 2 ∧ p.author_id ∉ assignedIDs db p.id)
    (c : Call) :
    ∀ p ∈ (c.run db).pull_requests,
      (assignedIDs (c.run db) p.id).length ≤ 2 ∧ p.author_id ∉ assignedIDs (c.run db) p.id := by
  cases c with
  | CreateTeam now team =>
    obtain ⟨h1, h2⟩ := CreateTeam_tables db now team
    intro p hp
    simp only [Call.run] at hp ⊢
    rw [h1] at hp
    rw [assignedIDs_congr db _ p.id (by rw [h2])]
    exact hinv p hp
  | GetTeam teamName =>
    simp only [Call.run]
    rw [GetTeam_store]
    exact hinv
  | SetUserActive now userID isActive =>
    obtain ⟨h1, h2⟩ := SetUserActive_tables db now userID isActive
    intro p hp
    simp only [Call.run] at hp ⊢
    rw [h1] at hp
    rw [assignedIDs_congr db _ p.id (by rw [h2])]
    exact hinv p hp
  | CreatePullRequest rnd now prID prName authorID =>
    simp only [Call.run]
    rcases CreatePullRequest_store db rnd now prID prName authorID hs with h | ⟨a, _, _, hex, h1, h2⟩
    · rw [h]
      exact hinv
    · intro p hp
      rw [h1] at hp
      rcases List.mem_append.mp hp with hp | hp
      · have hne := id_ne_of_unused db prID p hp hex
        rw [assignedIDs_congr db _ p.id
          (by rw [h2]; exact rows_of_other_pr_after_create _ _ prID p.id now hne)]
        exact hinv p hp
      · rw [List.mem_singleton] at hp
        subst hp
        have hids : assignedIDs (Service.CreatePullRequest db rnd now prID prName authorID).1 prID
            = drawnReviewerIDs db rnd a := by
          simp only [assignedIDs]
          rw [h2]
          exact assignedIDs_after_create db hs prID _ now hex
        simp only [hids]
        refine ⟨?_, drawnReviewerIDs_not_author db rnd a⟩
        rw [drawnReviewerIDs_length]
        exact Nat.min_le_left _ _
  | MergePullRequest now prID =>
    simp only [Call.run]
    rcases MergePullRequest_store db now prID with h | ⟨q, _, _, h⟩
    · rw [h]
      exact hinv
    · rw [h]
      intro p hp
      simp only [List.mem_map] at hp
      obtain ⟨p0, hp0, rfl⟩ := hp
      have hid : (if p0.id = prID then
          { p0 with status := StatusMerged, merged_at := some now } else p0).id = p0.id := by
        split <;> rfl
      have hau : (if p0.id = prID then
          { p0 with status := StatusMerged, merged_at := some now } else p0).author_id
            = p0.author_id := by
        split <;> rfl
      rw [hid, hau]
      exact hinv p0 hp0
  | ReassignReviewer rnd now prID oldUserID =>
    simp only [Call.run]
    rcases ReassignReviewer_store db rnd now prID oldUserID with
      h | ⟨q, n, hq, _, hold, hna, _, _, h⟩
    · rw [h]
      exact hinv
    · obtain ⟨_, _, hprs, _⟩ := ReplaceReviewer_ok_inv db prID oldUserID n now _ h
      intro p hp
      rw [hprs] at hp
      by_cases hne : p.id = prID
      · have hfind := find_of_keyed (fun z : PullRequestRow => z.id) db.pull_requests p
          hs.2.2.2.1 hp
        simp only [hne] at hfind
        rw [hq] at hfind
        injection hfind with hfind
        subst hfind
        have hold1 : oldUserID ∈ assignedIDs db prID :=
          (GetPRReviewers_perm_assigned db prID).subset hold
        have hnodup : (assignedIDs db prID).Nodup :=
          reviewer_ids_nodup prID db.pr_reviewers hs.2.2.2.2.1
        have hq0 := hinv q hp
        rw [hne] at hq0 ⊢
        rw [assignedIDs_after_replace db _ prID oldUserID n now h]
        refine ⟨?_, ?_⟩
        · rw [length_after_replace _ oldUserID n hnodup hold1]
          exact hq0.1
        · intro hmem
          simp only [List.mem_append, List.mem_filter, List.mem_singleton] at hmem
          rcases hmem with ⟨hm, _⟩ | hm
          · exact hq0.2 hm
          · exact hna hm.symm
      · rw [assignedIDs_congr db _ p.id
          (rows_of_other_pr_after_replace db _ prID oldUserID n now p.id hne h)]
        exact hinv p hp
  | GetUserReviews userID =>
    simp only [Call.run]
    rw [GetUserReviews_store]
    exact hinv

theorem Reachable.assigned {db : DB} (h : Reachable db) :
    ∀ p ∈ db.pull_requests,
      (assignedIDs db p.id).length ≤ 2 ∧ p.author_id ∉ assignedIDs db p.id := by
  induction h with
  | empty =>
    intro p hp
    cases hp
  | step db c hr ih => exact assigned_step db hr.schema ih c

theorem teamStore_reachable : Reachable teamStore :=
  Reachable.step DB.empty
    (.CreateTeam 1
      { TeamName := "alpha",
        Members := [⟨"A", "Alice", true⟩, ⟨"B", "Bob", true⟩, ⟨"C", "Carol", false⟩] })
    Reachable.empty

theorem openStore_reachable : Reachable openStore :=
  Reachable.step teamStore (.CreatePullRequest (fun i => i) 2 "pr1" "title" "A")
    teamStore_reachable

theorem mergedStore_reachable : Reachable mergedStore :=
  Reachable.step openStore (.MergePullRequest 3 "pr1") openStore_reachable

theorem twoPRStore_reachable : Reachable twoPRStore :=
  Reachable.step _ (.CreatePullRequest (fun i => i) 5 "pr2" "second" "B")
    (Reachable.step _ (.ReassignReviewer (fun i => i) 4 "pr1" "B")
      (Reachable.step openStore (.SetUserActive 3 "C" true) openStore_reachable))

/-! ## the reviews of a user -/

theorem length_le_one_of_all_eq {α : Type} (a : α) : ∀ (l : List α), l.Nodup →
    (∀ x ∈ l, x = a) → l.length ≤ 1
  | [], _, _ => by simp
  | [_], _, _ => by simp
  | x :: y :: t, hn, hall => by
    have hx : x = a := hall x (List.mem_cons_self _ _)
    have hy : y = a := hall y (List.mem_cons_of_mem _ (List.mem_cons_self _ _))
    rw [List.nodup_cons] at hn
    exact absurd (by rw [hx, hy]; exact List.mem_cons_self _ _) hn.1

/-- With the relation keyed by (PR id, user id), a pair has at most one row. -/
theorem pair_rows_le_one (rows : List ReviewerRow) (k u : String)
    (hkey : (rows.map (fun r => (r.pull_request_id, r.user_id))).Nodup) :
    (rows.filter (fun r => r.pull_request_id == k && r.user_id == u)).length ≤ 1 := by
  have hsub : ((rows.filter (fun r => r.pull_request_id == k && r.user_id == u)).map
      (fun r => (r.pull_request_id, r.user_id))).Nodup :=
    hkey.sublist ((List.filter_sublist _).map _)
  have := length_le_one_of_all_eq (k, u) _ hsub (by
    intro x hx
    simp only [List.mem_map, List.mem_filter, Bool.and_eq_true, beq_iff_eq] at hx
    obtain ⟨r, ⟨_, hk, hu⟩, rfl⟩ := hx
    rw [hk, hu])
  simpa using this

theorem joined_rows_of_pr (rows : List ReviewerRow) (p : PullRequestRow) (u : String)
    (hkey : (rows.map (fun r => (r.pull_request_id, r.user_id))).Nodup) :
    (rows.filter (fun r => r.pull_request_id == p.id && r.user_id == u)).map (fun _ => p)
      = if rows.any (fun r => r.pull_request_id == p.id && r.user_id == u) then [p] else [] := by
  have hlen := pair_rows_le_one rows p.id u hkey
  cases hl : rows.filter (fun r => r.pull_request_id == p.id && r.user_id == u) with
  | nil =>
    have hany : rows.any (fun r => r.pull_request_id == p.id && r.user_id == u) = false := by
      rw [List.any_eq_false]
      intro r hr hc
      have : r ∈ rows.filter (fun r => r.pull_request_id == p.id && r.user_id == u) :=
        List.mem_filter.mpr ⟨hr, hc⟩
      rw [hl] at this
      cases this
    simp [hany]
  | cons r t =>
    rw [hl] at hlen
    have ht : t = [] := List.length_eq_zero.mp (by simpa using hlen)
    subst ht
    have hmem : r ∈ rows.filter (fun r => r.pull_request_id == p.id && r.user_id == u) := by
      rw [hl]
      exact List.mem_cons_self _ _
    have hany : rows.any (fun r => r.pull_request_id == p.id && r.user_id == u) = true := by
      rw [List.any_eq_true]
      exact ⟨r, (List.mem_filter.mp hmem).1, (List.mem_filter.mp hmem).2⟩
    simp [hany]

/-- The join of `GetUserReviews` keeps each pull request the user reviews once. -/
theorem joined_eq_filter (rows : List ReviewerRow) (u : String)
    (hkey : (rows.map (fun r => (r.pull_request_id, r.user_id))).Nodup) :
    ∀ prs : List PullRequestRow,
      (prs.map (fun p =>
        (rows.filter (fun r => r.pull_request_id == p.id && r.user_id == u)).map
          (fun _ => p))).flatten
        = prs.filter (fun p => rows.any (fun r => r.pull_request_id == p.id && r.user_id == u))
  | [] => rfl
  | p :: t => by
    rw [List.map_cons, List.flatten_cons, joined_rows_of_pr rows p u hkey,
      joined_eq_filter rows u hkey t, List.filter_cons]
    split <;> simp

theorem mem_GetPRReviewers (db : DB) (prID u : String) :
    u ∈ Repo.GetPRReviewers db prID ↔
      db.pr_reviewers.any (fun r => r.pull_request_id == prID && r.user_id == u) = true := by
  rw [(GetPRReviewers_perm db prID).mem_iff]
  simp only [List.mem_map, List.mem_filter, beq_iff_eq, List.any_eq_true, Bool.and_eq_true]
  constructor
  · rintro ⟨r, ⟨hr, hp⟩, hu⟩
    exact ⟨r, hr, hp, hu⟩
  · rintro ⟨r, hr, hp, hu⟩
    exact ⟨r, ⟨hr, hp⟩, hu⟩

/-- The list `Repo.GetUserReviews` returns: the pull requests the user reviews,
sorted by creation time, newest first, as summaries. -/
theorem GetUserReviews_eq (db : DB) (hs : db.Schema) (userID : String) :
    Repo.GetUserReviews db userID
      = ((db.pull_requests.filter
            (fun p => decide (userID ∈ Repo.GetPRReviewers db p.id))).insertionSort
          (fun a b => b.created_at ≤ a.created_at)).map PullRequestRow.toShort := by
  unfold Repo.GetUserReviews
  rw [joined_eq_filter db.pr_reviewers userID hs.2.2.2.2.1 db.pull_requests]
  have hf : db.pull_requests.filter
      (fun p => db.pr_reviewers.any (fun r => r.pull_request_id == p.id && r.user_id == userID))
      = db.pull_requests.filter (fun p => decide (userID ∈ Repo.GetPRReviewers db p.id)) := by
    apply List.filter_congr
    intro p _
    by_cases h : userID ∈ Repo.GetPRReviewers db p.id
    · simp only [h, decide_True]
      exact (mem_GetPRReviewers db p.id userID).mp h
    · simp only [h, decide_False]
      cases hc : db.pr_reviewers.any (fun r => r.pull_request_id == p.id && r.user_id == userID)
      · rfl
      · exact absurd ((mem_GetPRReviewers db p.id userID).mpr hc) h
  rw [hf]
  rfl

theorem sorted_newest_first (l : List PullRequestRow) :
    (l.insertionSort (fun a b => b.created_at ≤ a.created_at)).Sorted
      (fun a b => b.created_at ≤ a.created_at) := by
  haveI : IsTotal PullRequestRow (fun a b => b.created_at ≤ a.created_at) :=
    ⟨fun a b => Nat.le_total b.created_at a.created_at⟩
  haveI : IsTrans PullRequestRow (fun a b => b.created_at ≤ a.created_at) :=
    ⟨fun _ _ _ hab hbc => Nat.le_trans hbc hab⟩
  exact List.sorted_insertionSort _ l

/-- After a committed replacement the replaced reviewer has no row on the PR. -/
theorem old_reviewer_removed (db db1 : DB) (prID oldUserID newUserID : String) (now : Nat)
    (hne : newUserID ≠ oldUserID)
    (h : Repo.ReplaceReviewer db prID oldUserID newUserID now = .ok db1) :
    oldUserID ∉ Repo.GetPRReviewers db1 prID := by
  intro hmem
  have := (GetPRReviewers_after_replace db prID oldUserID newUserID now db1 h).subset hmem
  simp only [List.mem_append, List.mem_filter, bne_iff_ne, ne_eq, not_true_eq_false,
    and_false, List.mem_singleton, false_or] at this
  exact hne this.symm

/-! ## properties of the specification: invariants and reads -/

/-- Claim C11: in every store the service can reach, a pull request with status
MERGED keeps its row (status, merge timestamp and all other columns) and its
reviewer list through every sequence of later calls, whatever their arguments
and whether they succeed or fail; reading it afterwards returns the same
pull request. -/
theorem merged_immutable (db : DB) (hr : Reachable db) (cs : List Call) (p : PullRequestRow)
    (hp : p ∈ db.pull_requests) (hm : p.status = StatusMerged) :
    p ∈ (cs.foldl Call.run db).pull_requests ∧
    Repo.GetPRReviewers (cs.foldl Call.run db) p.id = Repo.GetPRReviewers db p.id ∧
    Repo.GetPullRequest (cs.foldl Call.run db) p.id
      = .ok (p.toPullRequest (Repo.GetPRReviewers db p.id)) ∧
    Repo.GetPullRequest db p.id = .ok (p.toPullRequest (Repo.GetPRReviewers db p.id)) := by
  obtain ⟨hs1, hp1, hrows⟩ := merged_kept cs db hr.schema p hp hm
  have hrev : Repo.GetPRReviewers (cs.foldl Call.run db) p.id = Repo.GetPRReviewers db p.id := by
    simp only [Repo.GetPRReviewers, hrows]
  refine ⟨hp1, hrev, ?_, GetPullRequest_of_mem db p hr.schema hp⟩
  rw [GetPullRequest_of_mem _ p hs1 hp1, hrev]

theorem merged_immutable_witness :
    Reachable mergedStore ∧
    (⟨"pr1", "title", "A", "MERGED", 2, some 3⟩ : PullRequestRow) ∈
      ([Call.ReassignReviewer (fun i => i) 4 "pr1" "B", Call.SetUserActive 5 "C" true,
        Call.ReassignReviewer (fun i => i) 6 "pr1" "B", Call.MergePullRequest 7 "pr1",
        Call.CreateTeam 8 { TeamName := "beta", Members := [⟨"B", "Bob", true⟩] },
        Call.CreatePullRequest (fun i => i) 9 "pr1" "again" "A",
        Call.CreatePullRequest (fun i => i) 10 "pr2" "second" "C",
        Call.GetTeam "alpha", Call.GetUserReviews "B"].foldl Call.run mergedStore).pull_requests ∧
    Repo.GetPullRequest
      ([Call.ReassignReviewer (fun i => i) 4 "pr1" "B", Call.SetUserActive 5 "C" true,
        Call.ReassignReviewer (fun i => i) 6 "pr1" "B", Call.MergePullRequest 7 "pr1",
        Call.CreateTeam 8 { TeamName := "beta", Members := [⟨"B", "Bob", true⟩] },
        Call.CreatePullRequest (fun i => i) 9 "pr1" "again" "A",
        Call.CreatePullRequest (fun i => i) 10 "pr2" "second" "C",
        Call.GetTeam "alpha", Call.GetUserReviews "B"].foldl Call.run mergedStore) "pr1"
      = .ok ⟨"pr1", "title", "A", StatusMerged, ["B"], some 2, some 3⟩ :=
  have h := merged_immutable mergedStore mergedStore_reachable
    [Call.ReassignReviewer (fun i => i) 4 "pr1" "B", Call.SetUserActive 5 "C" true,
     Call.ReassignReviewer (fun i => i) 6 "pr1" "B", Call.MergePullRequest 7 "pr1",
     Call.CreateTeam 8 { TeamName := "beta", Members := [⟨"B", "Bob", true⟩] },
     Call.CreatePullRequest (fun i => i) 9 "pr1" "again" "A",
     Call.CreatePullRequest (fun i => i) 10 "pr2" "second" "C",
     Call.GetTeam "alpha", Call.GetUserReviews "B"]
    ⟨"pr1", "title", "A", "MERGED", 2, some 3⟩ (by decide) rfl
  ⟨mergedStore_reachable, h.1, h.2.2.1⟩

/-- Claim C12: on a store that satisfies its schema, `GetUserReviews` fails
with NotFound when no user has the id; when the user is stored it succeeds,
leaves the store as it was, and returns the summaries (id, name, author,
status) of exactly the pull requests on which the user is an assigned
reviewer, whatever their status, each once, ordered by creation time
descending; and after a successful `ReassignReviewer` that replaced the user
on a pull request, the result for that user holds no summary of it. -/
theorem GetUserReviews_spec (db : DB) (hs : db.Schema) (userID : String) :
    ((∀ u ∈ db.users, u.id ≠ userID) →
      Service.GetUserReviews db userID = (db, .error .ErrNotFound)) ∧
    ((∃ u ∈ db.users, u.id = userID) →
      ∃ rows : List PullRequestRow,
        Service.GetUserReviews db userID = (db, .ok (rows.map PullRequestRow.toShort)) ∧
        rows.Perm (db.pull_requests.filter
          (fun p => decide (userID ∈ Repo.GetPRReviewers db p.id))) ∧
        (rows.map (fun p => p.id)).Nodup ∧
        rows.Sorted (fun a b => b.created_at ≤ a.created_at)) ∧
    (∀ (rnd : Nat → Nat) (now : Nat) (prID : String) (db1 : DB) (updatedPR : PullRequest)
        (newID : String),
      Service.ReassignReviewer db rnd now prID userID = (db1, .ok (updatedPR, newID)) →
      ∃ l, Service.GetUserReviews db1 userID = (db1, .ok l) ∧ ∀ s ∈ l, s.ID ≠ prID) := by
  refine ⟨?_, ?_, ?_⟩
  · intro hnone
    have hfind : db.users.find? (fun z => z.id == userID) = none := by
      rw [List.find?_eq_none]
      intro u hu
      simpa using hnone u hu
    simp [Service.GetUserReviews, Repo.GetUser, hfind]
  · rintro ⟨u, hu, hid⟩
    obtain ⟨y, hy, _⟩ := find_id_of_mem (fun z : UserRow => z.id) userID _ u hu hid
    refine ⟨_, ?_, List.perm_insertionSort _ _, ?_, sorted_newest_first _⟩
    · simp only [Service.GetUserReviews, Repo.GetUser, hy, GetUserReviews_eq db hs userID]
    · have hsub : ((db.pull_requests.filter
          (fun p => decide (userID ∈ Repo.GetPRReviewers db p.id))).map (fun p => p.id)).Nodup :=
        hs.2.2.2.1.sublist ((List.filter_sublist _).map _)
      exact ((List.perm_insertionSort _ _).map _).nodup_iff.mpr hsub
  · intro rnd now prID db1 updatedPR newID hok
    obtain ⟨q, o, hq, _, _, ho, _, hrep, _⟩ :=
      ReassignReviewer_ok_inv db rnd now prID userID db1 updatedPR newID hok
    obtain ⟨_, _, _, hne, _⟩ :=
      ReassignReviewer_ok_fresh db rnd now prID userID db1 updatedPR newID hok
    obtain ⟨_, husers, _, _⟩ := ReplaceReviewer_ok_inv db prID userID newID now db1 hrep
    have hs1 : db1.Schema := Schema_ReplaceReviewer db db1 prID userID newID now hs
      ⟨q, List.mem_of_find?_eq_some hq, by simpa using List.find?_some hq⟩ hrep
    have hgone := old_reviewer_removed db db1 prID userID newID now hne hrep
    refine ⟨Repo.GetUserReviews db1 userID, ?_, ?_⟩
    · simp only [Service.GetUserReviews, Repo.GetUser, husers, ho]
    · intro s hmem he
      rw [GetUserReviews_eq db1 hs1 userID] at hmem
      simp only [List.mem_map, List.mem_insertionSort, List.mem_filter,
        decide_eq_true_eq] at hmem
      obtain ⟨p, ⟨_, hp⟩, rfl⟩ := hmem
      have hpid : p.id = prID := he
      rw [hpid] at hp
      exact hgone hp

theorem GetUserReviews_spec_witness :
    twoPRStore.Schema ∧
    Service.GetUserReviews twoPRStore "C"
      = (twoPRStore, .ok [⟨"pr2", "second", "B", "OPEN"⟩, ⟨"pr1", "title", "A", "OPEN"⟩]) ∧
    Service.GetUserReviews twoPRStore "nobody" = (twoPRStore, .error .ErrNotFound) :=
  ⟨by decide, by decide, (GetUserReviews_spec twoPRStore (by decide) "nobody").1 (by decide)⟩

/-- Claim C13: in every store the service can reach from the empty store, every
pull request has at most 2 assigned reviewers, their ids are pairwise
distinct, and none of them is the author of the pull request. -/
theorem reviewers_invariant (db : DB) (hr : Reachable db) (p : PullRequestRow)
    (hp : p ∈ db.pull_requests) :
    (Repo.GetPRReviewers db p.id).length ≤ 2 ∧
    (Repo.GetPRReviewers db p.id).Nodup ∧
    p.author_id ∉ Repo.GetPRReviewers db p.id := by
  have hperm := GetPRReviewers_perm_assigned db p.id
  obtain ⟨hlen, hauthor⟩ := hr.assigned p hp
  refine ⟨?_, ?_, ?_⟩
  · rw [hperm.length_eq]
    exact hlen
  · exact hperm.nodup_iff.mpr (reviewer_ids_nodup p.id db.pr_reviewers hr.schema.2.2.2.2.1)
  · exact fun hmem => hauthor (hperm.subset hmem)

theorem reviewers_invariant_witness :
    Reachable twoPRStore ∧
    Repo.GetPRReviewers twoPRStore "pr2" = ["A", "C"] ∧
    (Repo.GetPRReviewers twoPRStore "pr2").length ≤ 2 ∧
    (Repo.GetPRReviewers twoPRStore "pr2").Nodup ∧
    "B" ∉ Repo.GetPRReviewers twoPRStore "pr2" :=
  ⟨twoPRStore_reachable, by decide,
   reviewers_invariant twoPRStore twoPRStore_reachable ⟨"pr2", "second", "B", "OPEN", 5, none⟩
     (by decide)⟩

end PRService
